import Mathlib

set_option maxRecDepth 8000

/-!
Verification of the resilient polling/dispatch orchestration layer of the
wx-filehelper-api repository.

The definitions below are a shallow embedding of `background.py`
(`BackgroundTasks._background_listener`, `BackgroundTasks._heartbeat_monitor`,
`BackgroundTasks._add_error`) and of the scheduled-task validation in
`routes/framework.py` (`TaskCreatePayload`, `framework_add_task`).

Modelling conventions:
* Python floats (`poll_interval`, `time.time()`) are embedded as rationals;
  the arithmetic used by the code (multiplication by 1.2, `min`, constants
  0.5, 1.0, 3.0) is carried out exactly.
* The transport (`direct_bot.WeChatHelperBot`), the command processor and the
  wall clock are external collaborators: their per-cycle responses are inputs
  (`CycleEnv`, `CycleObs`, `HBObs`) to the embedded step functions.
* File-download side effects (`_handle_file_download`) touch only the
  filesystem and the message store; they do not modify any of the state
  modelled here and are therefore not represented.
-/

namespace WxFileHelper

/-- Python `str.strip()`: drop leading and trailing whitespace characters. -/
def pyStrip (s : String) : String :=
  String.mk (((s.data.dropWhile Char.isWhitespace).reverse.dropWhile
    Char.isWhitespace).reverse)

/-- An inbound message as produced by the transport scraper: a dict with
`text`, `id` and `type` fields (all read as strings by the listener). -/
structure Message where
  id : String
  text : String
  kind : String
  deriving DecidableEq

/-- background.py line 132: `content = str(msg.get("text", "")).strip()`. -/
def content (m : Message) : String := pyStrip m.text

/-- background.py line 133: `msg_id = str(msg.get("id", "")).strip()`. -/
def msg_id (m : Message) : String := pyStrip m.id

/-- background.py line 134: `unique_key = msg_id or content`. -/
def unique_key (m : Message) : String :=
  if msg_id m ≠ "" then msg_id m else content m

/-- `collections.deque(maxlen := n).append`: append on the right, dropping
from the left whenever the length would exceed `maxlen`. -/
def dequeAppend (maxlen : Nat) (xs : List α) (x : α) : List α :=
  let ys := xs ++ [x]
  if maxlen < ys.length then ys.drop (ys.length - maxlen) else ys

/-- One entry of the `stability_state["errors"]` ring. -/
structure ErrorEntry where
  time : String
  error : String
  deriving DecidableEq

/-- The shared `stability_state` dict. -/
structure StabilityState where
  reconnect_attempts : Nat
  last_heartbeat : ℚ
  last_message_time : ℚ
  total_messages : Nat
  errors : List ErrorEntry
  deriving DecidableEq

/-- `BackgroundTasks._add_error`: append an entry, then keep only the last
20 entries when the list has grown beyond 20. -/
def add_error (st : StabilityState) (nowIso : String) (e : String) :
    StabilityState :=
  let errs := st.errors ++ [⟨nowIso, e⟩]
  { st with errors := if 20 < errs.length then errs.drop (errs.length - 20) else errs }

/-- The local state of `_background_listener`: the dedup deque and set, the
echo buffer and the dynamic poll interval. -/
structure ListenerState where
  processed_order : List String
  processed_set : Finset String
  sent_buffer : List String
  poll_interval : ℚ
  deriving DecidableEq

/-- `deque(maxlen := 5000)` capacity of `processed_order`. -/
def orderCap : Nat := 5000

/-- `deque(maxlen := 40)` capacity of `sent_buffer`. -/
def sentCap : Nat := 40

/-- background.py line 113: `min_interval = 0.5`. -/
def min_interval : ℚ := 1/2

/-- background.py line 114: `max_interval = 3.0`. -/
def max_interval : ℚ := 3

/-- The listener state at loop entry (lines 107-112): empty structures and
`poll_interval = 1.0`. -/
def initListener : ListenerState := ⟨[], ∅, [], 1⟩

/-- Per-cycle responses of the external collaborators: the processor reply
(empty string models a falsy reply), the `send_text` result, and the clock. -/
structure CycleEnv where
  process : Message → String
  sendOk : String → Bool
  now : ℚ
  nowIso : String

/-- The listener-visible mutable state: its local state plus the shared
stability dict. -/
structure LoopState where
  ls : ListenerState
  stab : StabilityState
  deriving DecidableEq

/-- background.py lines 131-161, body of `for msg in reversed(messages)` for
one message. The returned flag is true exactly when the message reaches the
dispatch call `self.processor.process(msg)` (line 154). -/
def handleMessage (env : CycleEnv) (s : LoopState) (m : Message) :
    LoopState × Bool :=
  let c := content m
  let key := unique_key m
  if key = "" then (s, false)
  else if key ∈ s.ls.processed_set then (s, false)
  else
    let ls1 : ListenerState := { s.ls with
      processed_set := insert key s.ls.processed_set
      processed_order := dequeAppend orderCap s.ls.processed_order key }
    if c ≠ "" ∧ c ∈ ls1.sent_buffer then ({ s with ls := ls1 }, false)
    else
      let reply := env.process m
      let ls2 :=
        if reply ≠ "" ∧ env.sendOk reply = true then
          { ls1 with sent_buffer := dequeAppend sentCap ls1.sent_buffer reply }
        else ls1
      (⟨ls2, { s.stab with
                last_message_time := env.now
                total_messages := s.stab.total_messages + 1 }⟩, true)

/-- The message loop, one message after the other in list order, collecting
the dedup keys of the messages that were dispatched. -/
def batchGo (env : CycleEnv) : LoopState → List Message → LoopState × List String
  | s, [] => (s, [])
  | s, m :: rest =>
    let r := handleMessage env s m
    let rr := batchGo env r.1 rest
    (rr.1, (if r.2 then [unique_key m] else []) ++ rr.2)

/-- The message loop over one fetched batch (`for msg in reversed(messages)`):
the transport returns newest first, the loop walks oldest first. -/
def processBatch (env : CycleEnv) (s : LoopState) (msgs : List Message) :
    LoopState × List String :=
  batchGo env s msgs.reverse

/-- background.py lines 163-165: resync `processed_set` from the deque when it
has drifted by more than 100 entries. -/
def resyncStep (ls : ListenerState) : ListenerState :=
  if ls.processed_order.length + 100 < ls.processed_set.card then
    { ls with processed_set := ls.processed_order.toFinset }
  else ls

/-- background.py lines 167-171: reset the interval on a busy cycle, back off
(factor 1.2, capped at `max_interval`) on an idle one. -/
def updateInterval (had : Bool) (ls : ListenerState) : ListenerState :=
  { ls with poll_interval :=
      if had then min_interval else min (ls.poll_interval * (6/5)) max_interval }

/-- The logged-in part of one listener cycle: batch processing, resync, then
the interval adjustment. -/
def runOnline (env : CycleEnv) (s : LoopState) (msgs : List Message) :
    LoopState × List String :=
  let r := processBatch env s msgs
  (⟨updateInterval (!r.2.isEmpty) (resyncStep r.1.ls), r.1.stab⟩, r.2)

/-- What the environment does during one listener cycle:
* `offline` - `is_logged_in` is false and `check_login_status(poll := True)`
  does not restore it; no fetch happens;
* `restored` - the connectivity check restores the login (line 124), so
  `reconnect_attempts` is reset and the fetched batch is processed;
* `online` - already logged in, the fetched batch is processed;
* `raisesErr` - an exception escapes the cycle body before any message of
  the batch was handled (for instance from `check_login_status` or
  `get_latest_messages`), so the fault boundary at lines 173-177 sees the
  state unchanged;
* `raisesMid` - an exception escapes from inside the message loop. The only
  awaiting calls of the loop body sit after the dedup insertions at lines
  141-142 (the file download at line 151, `processor.process` at line 154,
  `send_text` at line 156), so the raise is attributable to one message `m`:
  the prefix `pre` of the reversed batch was handled completely, then `m`
  passed the guards, its dedup insertions were committed, and one of the
  awaited calls raised; `reached` is true when the raise happened at or
  after the `processor.process` call, so that `m` still counts as
  dispatched. The resync at lines 163-165 and the interval adjustment at
  lines 167-171 are skipped, and control moves to the fault boundary. -/
inductive CycleObs where
  | offline
  | restored (msgs : List Message)
  | online (msgs : List Message)
  | raisesErr (e : String)
  | raisesMid (pre : List Message) (m : Message) (reached : Bool) (e : String)

/-- Whether the cycle ends in the exception handler. -/
def CycleObs.isErr : CycleObs → Bool
  | .raisesErr _ => true
  | .raisesMid _ _ _ _ => true
  | _ => false

/-- Whether the cycle is an exception escaping from inside the message loop,
after some dedup insertions were already committed. -/
def CycleObs.isMidErr : CycleObs → Bool
  | .raisesMid _ _ _ _ => true
  | _ => false

/-- background.py lines 173-177, the `except` handler of the listener: record
the error and force the interval to `max_interval`. -/
def listenerRescue (nowIso e : String) (s : LoopState) : LoopState :=
  ⟨{ s.ls with poll_interval := max_interval },
    add_error s.stab nowIso ("Listener error: " ++ e)⟩

/-- background.py lines 132-142, the part of one message body that runs
before any awaited call: the guards and the two dedup insertions. An
exception raised by one of the awaited calls that follow leaves exactly
this state behind (the `sent_buffer` append at line 158 only happens after
`send_text` returned, and the stability updates at lines 160-161 after
that). -/
def insertMessage (s : LoopState) (m : Message) : LoopState :=
  let key := unique_key m
  if key = "" then s
  else if key ∈ s.ls.processed_set then s
  else { s with ls := { s.ls with
    processed_set := insert key s.ls.processed_set
    processed_order := dequeAppend orderCap s.ls.processed_order key } }

/-- One full iteration of the `while True` loop of `_background_listener`,
given the environment responses for this cycle. Returns the new state and
the dedup keys of the messages dispatched this cycle. In the `raisesMid`
case the prefix is handled in full, the dedup insertions of the raising
message are committed, and its key counts as dispatched exactly when the
raise happened at or after the `processor.process` call of a message that
reaches dispatch. -/
def listenerStep (env : CycleEnv) (obs : CycleObs) (s : LoopState) :
    LoopState × List String :=
  match obs with
  | .offline => (⟨updateInterval false s.ls, s.stab⟩, [])
  | .restored msgs =>
      runOnline env ⟨s.ls, { s.stab with reconnect_attempts := 0 }⟩ msgs
  | .online msgs => runOnline env s msgs
  | .raisesErr e => (listenerRescue env.nowIso e s, [])
  | .raisesMid pre m reached e =>
      let r := batchGo env s pre
      (listenerRescue env.nowIso e (insertMessage r.1 m),
        r.2 ++ if reached && (handleMessage env r.1 m).2
          then [unique_key m] else [])

/-- A run of consecutive listener cycles; the second component records, for
every cycle in order, the dedup keys dispatched during that cycle. -/
def listenerRun : List (CycleEnv × CycleObs) → LoopState →
    LoopState × List (List String)
  | [], s => (s, [])
  | p :: rest, s =>
    let r := listenerStep p.1 p.2 s
    let rr := listenerRun rest r.1
    (rr.1, r.2 :: rr.2)

/-- Observable events of one heartbeat tick: a logout detection (line 227),
an automatic reconnect attempt (lines 233-236), and an error recorded through
`_add_error`. -/
inductive HBEvent where
  | detected
  | attempted
  | errorAdded (e : String)
  deriving DecidableEq

/-- The state the heartbeat monitor reads and writes: the cached login flag
of the bot and the shared stability dict. -/
structure HBState where
  logged_in : Bool
  stab : StabilityState
  deriving DecidableEq

/-- Environment responses for one heartbeat tick: either the tick body raises
(caught at lines 242-243), or `_synccheck` returns a status string and, if a
reconnect is attempted, `check_login_status(poll := True)` ends with the login
flag equal to `reconnectOk`. -/
inductive HBObs where
  | fails (e : String)
  | probe (status : String) (reconnectOk : Bool)

/-- The message recorded when the reconnect budget is exhausted
(background.py lines 238-240). -/
def maxReachedMsg (maxA : Nat) : String :=
  "Max reconnect attempts (" ++ toString maxA ++ ") reached"

/-- One iteration of the `while True` loop of `_heartbeat_monitor`
(background.py lines 219-243), with its observable events. -/
def heartbeatTick (maxA : Nat) (now : ℚ) (nowIso : String) (obs : HBObs)
    (s : HBState) : HBState × List HBEvent :=
  match obs with
  | .fails e =>
      (⟨s.logged_in,
        add_error { s.stab with last_heartbeat := now } nowIso
          ("Heartbeat error: " ++ e)⟩,
       [.errorAdded ("Heartbeat error: " ++ e)])
  | .probe status rOk =>
      let st : StabilityState := { s.stab with last_heartbeat := now }
      if s.logged_in then
        if status = "loginout" then
          let st : StabilityState :=
            { st with reconnect_attempts := st.reconnect_attempts + 1 }
          if st.reconnect_attempts ≤ maxA then
            (⟨rOk, st⟩, [.detected, .attempted])
          else
            (⟨false, add_error st nowIso (maxReachedMsg maxA)⟩,
             [.detected, .errorAdded (maxReachedMsg maxA)])
        else (⟨s.logged_in, st⟩, [])
      else (⟨s.logged_in, st⟩, [])

/-- One step of a heartbeat run. `externRestore` models an agent other than
the heartbeat monitor making the bot logged in again between two ticks
without touching `reconnect_attempts` (for instance a manual re-login); the
listener path that resets the counter is deliberately not part of this
model, matching the premise of zero intervening counter resets. -/
structure HBStep where
  externRestore : Bool
  now : ℚ
  nowIso : String
  obs : HBObs

/-- Apply one heartbeat step: possible external restoration, then the tick. -/
def hbApply (maxA : Nat) (p : HBStep) (s : HBState) : HBState × List HBEvent :=
  heartbeatTick maxA p.now p.nowIso p.obs ⟨s.logged_in || p.externRestore, s.stab⟩

/-- A run of consecutive heartbeat ticks, concatenating the event traces. -/
def heartbeatRun (maxA : Nat) : List HBStep → HBState →
    HBState × List HBEvent
  | [], s => (s, [])
  | p :: rest, s =>
    let r := hbApply maxA p s
    let rr := heartbeatRun maxA rest r.1
    (rr.1, r.2 ++ rr.2)

/-- Number of logout detections in a heartbeat event trace. -/
def countDetected (tr : List HBEvent) : Nat := tr.count .detected

/-- The digit class of the validation engine the source relies on: pydantic
v2 compiles `Field(pattern=...)` with a Rust regex engine in which `\d`
matches every Unicode decimal digit (category Nd), not only ASCII `0-9`.
Only the Nd ranges relevant to the claims are listed here: the ASCII digits
and the Arabic-Indic digits U+0660-U+0669; the other Nd ranges behave the
same way and are omitted. -/
def unicodeDigit (c : Char) : Bool :=
  (decide ('0' ≤ c) && decide (c ≤ '9')) ||
    (decide (1632 ≤ c.toNat) && decide (c.toNat ≤ 1641))

/-- framework.py line 72, the pydantic constraint on `TaskCreatePayload.time_hm`:
the anchored pattern `([01]d|2[0-3]):[0-5]d` where `d` stands for the
engine's digit class, passed in as the parameter `nd` (the engine's actual
class is `unicodeDigit`; the literal classes `[01]`, `2`, `[0-3]`, `:` and
`[0-5]` read identically in every engine). -/
def timeHMPattern (nd : Char → Bool) (s : String) : Bool :=
  match s.data with
  | [h1, h2, c, m1, m2] =>
      ((h1 == '0' || h1 == '1') && nd h2 ||
        h1 == '2' && (decide ('0' ≤ h2) && decide (h2 ≤ '3'))) &&
      c == ':' && (decide ('0' ≤ m1) && decide (m1 ≤ '5')) && nd m2
  | _ => false

/-- The decimal digit character for `n ≤ 9`. -/
def digitChar (n : Nat) : Char := Char.ofNat (48 + n)

/-- A natural number printed as exactly two decimal digits (zero padded). -/
def twoDigits (n : Nat) : String := String.mk [digitChar (n / 10), digitChar (n % 10)]

/-- Spec-side reading of the validation rule: the string is `HH:MM` with
hours 00-23 and minutes 00-59. -/
def specValidTimeHM (s : String) : Prop :=
  ∃ h m : Nat, h ≤ 23 ∧ m ≤ 59 ∧ s = twoDigits h ++ ":" ++ twoDigits m

/-- framework.py lines 121-132 together with the pydantic validation of
`TaskCreatePayload`: an invalid payload is rejected synchronously with a
422 validation error before the handler body runs; inside the handler a
processor failure is mapped to a 400 response. `add_task` abstracts
`CommandProcessor.add_task`, which lives outside the embedded sources. The
handler never touches the stability dict, which is threaded through
unchanged. -/
def framework_add_task (add_task : String → String → String → Except String String)
    (time_hm command description : String) (st : StabilityState) :
    Except (Nat × String) String × StabilityState :=
  if timeHMPattern unicodeDigit time_hm = false then
    (.error (422, "String should match pattern"), st)
  else if command.length = 0 then
    (.error (422, "String should have at least 1 character"), st)
  else
    match add_task time_hm command description with
    | .ok t => (.ok t, st)
    | .error e => (.error (400, e), st)

/-- Total number of messages handed to the listener over a run; a cycle
dying mid-batch hands over its handled prefix plus the raising message. -/
def totalDelivered : List (CycleEnv × CycleObs) → Nat
  | [] => 0
  | (_, .online msgs) :: rest => msgs.length + totalDelivered rest
  | (_, .restored msgs) :: rest => msgs.length + totalDelivered rest
  | (_, .raisesMid pre _ _ _) :: rest => pre.length + 1 + totalDelivered rest
  | _ :: rest => totalDelivered rest

/-- An initial stability dict. -/
def stab0 : StabilityState := ⟨0, 0, 0, 0, []⟩

/-- An environment in which the processor never replies and sends fail. -/
def envNoReply : CycleEnv := ⟨fun _ => "", fun _ => false, 0, ""⟩

/-- The i-th key of the eviction scenario: a nonempty string of `i + 1`
letters, so that distinct indices give distinct keys. -/
def kA (i : Nat) : String := String.mk (List.replicate (i + 1) 'a')

/-- The i-th message of the eviction scenario. -/
def cexMsg (i : Nat) : Message := ⟨kA i, "", "text"⟩

/-- The first `n` cycles of the eviction scenario: one fresh message each. -/
def cexPrefix (n : Nat) : List (CycleEnv × CycleObs) :=
  (List.range n).map fun i => (envNoReply, CycleObs.online [cexMsg i])

/-- The eviction scenario: 5101 cycles with one fresh message each (filling
`processed_order` beyond capacity and triggering the resync), then a cycle
that redelivers the very first message. -/
def cexSteps : List (CycleEnv × CycleObs) :=
  cexPrefix 5101 ++ [(envNoReply, CycleObs.online [cexMsg 0])]

/-- The listener state after `n ≤ 5100` cycles of the eviction scenario. -/
def cexShape (n : Nat) : ListenerState :=
  ⟨((List.range n).map kA).drop (n - 5000), ((List.range n).map kA).toFinset,
    [], if n = 0 then 1 else min_interval⟩

/-- The drift scenario: 5100 cycles with one fresh message each (bringing
the set-deque excess to exactly 100, which never fires the resync), then a
cycle in which one more fresh message has its dedup insertions committed
before the cycle dies in an exception, skipping the resync check. -/
def driftSteps : List (CycleEnv × CycleObs) :=
  cexPrefix 5100 ++
    [(envNoReply, CycleObs.raisesMid [] (cexMsg 5100) false "boom")]

/-! ### Basic lemmas about the embedded operations -/

theorem dequeAppend_eq {α : Type} (n : Nat) (xs : List α) (x : α) (h : 0 < n) :
    dequeAppend n xs x = xs.drop (xs.length + 1 - n) ++ [x] := by
  unfold dequeAppend
  simp only [List.length_append, List.length_cons, List.length_nil]
  split
  · rw [List.drop_append_of_le_length (by omega)]
  · have : xs.length + 1 - n = 0 := by omega
    rw [this, List.drop_zero]

theorem dequeAppend_length_le {α : Type} (n : Nat) (xs : List α) (x : α) :
    (dequeAppend n xs x).length ≤ n := by
  unfold dequeAppend
  dsimp only
  split <;> rename_i h <;>
    simp only [List.length_drop, List.length_append, List.length_cons,
      List.length_nil] at h ⊢ <;> omega

theorem dequeAppend_of_lt {α : Type} (n : Nat) (xs : List α) (x : α)
    (h : xs.length < n) : dequeAppend n xs x = xs ++ [x] := by
  rw [dequeAppend_eq n xs x (by omega)]
  have : xs.length + 1 - n = 0 := by omega
  rw [this, List.drop_zero]

theorem mem_dequeAppend_self {α : Type} (n : Nat) (xs : List α) (x : α)
    (h : 0 < n) : x ∈ dequeAppend n xs x := by
  rw [dequeAppend_eq n xs x h]
  exact List.mem_append_right _ (List.mem_singleton.mpr rfl)

theorem add_error_eq (st : StabilityState) (iso e : String) :
    add_error st iso e =
      { st with errors :=
          st.errors.drop (st.errors.length + 1 - 20) ++ [⟨iso, e⟩] } := by
  unfold add_error
  simp only [List.length_append, List.length_cons, List.length_nil]
  split
  · rw [List.drop_append_of_le_length (by omega)]
  · have : st.errors.length + 1 - 20 = 0 := by omega
    rw [this, List.drop_zero]

theorem add_error_length_le (st : StabilityState) (iso e : String) :
    (add_error st iso e).errors.length ≤ 20 := by
  unfold add_error
  simp only [List.length_append, List.length_cons, List.length_nil]
  split
  · simp only [List.length_drop, List.length_append, List.length_cons,
      List.length_nil]
    omega
  · simp only [List.length_append, List.length_cons, List.length_nil]
    omega

theorem add_error_getLast? (st : StabilityState) (iso e : String) :
    (add_error st iso e).errors.getLast? = some ⟨iso, e⟩ := by
  rw [add_error_eq]
  exact List.getLast?_concat _

/-! ### Frame lemmas for the listener cycle -/

theorem handleMessage_poll_interval (env : CycleEnv) (s : LoopState)
    (m : Message) :
    (handleMessage env s m).1.ls.poll_interval = s.ls.poll_interval := by
  unfold handleMessage
  dsimp only
  split_ifs <;> rfl

theorem handleMessage_stab_frame (env : CycleEnv) (s : LoopState)
    (m : Message) :
    (handleMessage env s m).1.stab.reconnect_attempts =
      s.stab.reconnect_attempts ∧
    (handleMessage env s m).1.stab.errors = s.stab.errors := by
  unfold handleMessage
  dsimp only
  split_ifs <;> exact ⟨rfl, rfl⟩

theorem batchGo_poll_interval (env : CycleEnv) (l : List Message) :
    ∀ s : LoopState, (batchGo env s l).1.ls.poll_interval = s.ls.poll_interval := by
  induction l with
  | nil => intro s; rfl
  | cons m rest ih =>
      intro s
      show (batchGo env (handleMessage env s m).1 rest).1.ls.poll_interval = _
      rw [ih, handleMessage_poll_interval]

theorem batchGo_stab_frame (env : CycleEnv) (l : List Message) :
    ∀ s : LoopState,
      (batchGo env s l).1.stab.reconnect_attempts = s.stab.reconnect_attempts ∧
      (batchGo env s l).1.stab.errors = s.stab.errors := by
  induction l with
  | nil => intro s; exact ⟨rfl, rfl⟩
  | cons m rest ih =>
      intro s
      have h1 := handleMessage_stab_frame env s m
      have h2 := ih (handleMessage env s m).1
      exact ⟨h2.1.trans h1.1, h2.2.trans h1.2⟩

theorem resyncStep_frame (ls : ListenerState) :
    (resyncStep ls).poll_interval = ls.poll_interval ∧
    (resyncStep ls).processed_order = ls.processed_order ∧
    (resyncStep ls).sent_buffer = ls.sent_buffer := by
  unfold resyncStep
  split <;> exact ⟨rfl, rfl, rfl⟩

/-! ### C4: echo suppression -/

/-- C4: if the `sent_buffer` of at most 40 recent replies contains a nonempty
text `T`, an inbound not-yet-seen message whose stripped text equals `T` is
not forwarded to `processor.process`, but its dedup key is still recorded in
both `processed_set` and `processed_order`. -/
theorem echo_suppression (env : CycleEnv) (s : LoopState) (m : Message)
    (T : String) (hT : content m = T) (hne : T ≠ "")
    (hmem : T ∈ s.ls.sent_buffer) (hfresh : unique_key m ∉ s.ls.processed_set) :
    (handleMessage env s m).2 = false ∧
    unique_key m ∈ (handleMessage env s m).1.ls.processed_set ∧
    unique_key m ∈ (handleMessage env s m).1.ls.processed_order := by
  have hkey : ¬ unique_key m = "" := by
    unfold unique_key
    split
    · assumption
    · rw [hT]; exact hne
  have hecho : content m ≠ "" ∧ content m ∈ s.ls.sent_buffer :=
    ⟨by rw [hT]; exact hne, by rw [hT]; exact hmem⟩
  unfold handleMessage
  dsimp only
  rw [if_neg hkey, if_neg hfresh, if_pos hecho]
  exact ⟨rfl, Finset.mem_insert_self _ _,
    mem_dequeAppend_self _ _ _ (by norm_num [orderCap])⟩

/-- Witness for C4 at a concrete state and message. -/
theorem echo_suppression_witness :
    (handleMessage envNoReply ⟨⟨[], ∅, ["pong"], 1⟩, stab0⟩
        ⟨"id1", " pong ", "text"⟩).2 = false ∧
    unique_key ⟨"id1", " pong ", "text"⟩ ∈
      (handleMessage envNoReply ⟨⟨[], ∅, ["pong"], 1⟩, stab0⟩
        ⟨"id1", " pong ", "text"⟩).1.ls.processed_set ∧
    unique_key ⟨"id1", " pong ", "text"⟩ ∈
      (handleMessage envNoReply ⟨⟨[], ∅, ["pong"], 1⟩, stab0⟩
        ⟨"id1", " pong ", "text"⟩).1.ls.processed_order :=
  echo_suppression envNoReply ⟨⟨[], ∅, ["pong"], 1⟩ , stab0⟩
    ⟨"id1", " pong ", "text"⟩ "pong" (by decide) (by decide)
    (by decide) (by decide)

/-! ### C7: listener fault boundary -/

/-- C7: the `except` handler of the listener records the error (the ring
keeping at most the 20 most recent entries), forces the poll interval to the
maximum 3.0, leaves the dedup state untouched, and the loop goes on with the
remaining cycles. -/
theorem listener_fault_boundary :
    (∀ (s : LoopState) (iso e : String),
      (listenerRescue iso e s).ls.poll_interval = 3 ∧
      (listenerRescue iso e s).stab.errors.getLast? =
        some ⟨iso, "Listener error: " ++ e⟩ ∧
      (listenerRescue iso e s).stab.errors.length ≤ 20 ∧
      (listenerRescue iso e s).stab.errors <:+
        s.stab.errors ++ [⟨iso, "Listener error: " ++ e⟩] ∧
      (listenerRescue iso e s).ls.processed_order = s.ls.processed_order ∧
      (listenerRescue iso e s).ls.processed_set = s.ls.processed_set ∧
      (listenerRescue iso e s).ls.sent_buffer = s.ls.sent_buffer) ∧
    (∀ (env : CycleEnv) (e : String) (rest : List (CycleEnv × CycleObs))
      (s : LoopState),
      listenerRun ((env, CycleObs.raisesErr e) :: rest) s =
        ((listenerRun rest (listenerRescue env.nowIso e s)).1,
          [] :: (listenerRun rest (listenerRescue env.nowIso e s)).2)) := by
  constructor
  · intro s iso e
    refine ⟨rfl, add_error_getLast? _ _ _, add_error_length_le _ _ _, ?_,
      rfl, rfl, rfl⟩
    show (add_error s.stab iso _).errors <:+ _
    rw [add_error_eq]
    exact ⟨s.stab.errors.take (s.stab.errors.length + 1 - 20), by
      rw [← List.append_assoc, List.take_append_drop]⟩
  · intro env e rest s
    rfl

/-! ### C5: bounded memory -/

theorem handleMessage_caps (env : CycleEnv) (s : LoopState) (m : Message)
    (h1 : s.ls.processed_order.length ≤ 5000)
    (h2 : s.ls.sent_buffer.length ≤ 40) :
    (handleMessage env s m).1.ls.processed_order.length ≤ 5000 ∧
    (handleMessage env s m).1.ls.sent_buffer.length ≤ 40 := by
  unfold handleMessage
  dsimp only
  split_ifs <;>
    refine ⟨?_, ?_⟩ <;>
    first
      | exact h1
      | exact h2
      | exact dequeAppend_length_le 5000 _ _
      | exact dequeAppend_length_le 40 _ _

theorem insertMessage_sent (s : LoopState) (m : Message) :
    (insertMessage s m).ls.sent_buffer = s.ls.sent_buffer := by
  unfold insertMessage
  dsimp only
  split_ifs <;> rfl

theorem insertMessage_caps (s : LoopState) (m : Message)
    (h1 : s.ls.processed_order.length ≤ 5000) :
    (insertMessage s m).ls.processed_order.length ≤ 5000 := by
  unfold insertMessage
  dsimp only
  split_ifs <;> first | exact h1 | exact dequeAppend_length_le 5000 _ _

theorem batchGo_caps (env : CycleEnv) (l : List Message) :
    ∀ s : LoopState,
      s.ls.processed_order.length ≤ 5000 → s.ls.sent_buffer.length ≤ 40 →
      (batchGo env s l).1.ls.processed_order.length ≤ 5000 ∧
      (batchGo env s l).1.ls.sent_buffer.length ≤ 40 := by
  induction l with
  | nil => intro s h1 h2; exact ⟨h1, h2⟩
  | cons m rest ih =>
      intro s h1 h2
      have h := handleMessage_caps env s m h1 h2
      exact ih (handleMessage env s m).1 h.1 h.2

theorem listenerStep_caps (env : CycleEnv) (obs : CycleObs) (s : LoopState)
    (h1 : s.ls.processed_order.length ≤ 5000)
    (h2 : s.ls.sent_buffer.length ≤ 40) :
    (listenerStep env obs s).1.ls.processed_order.length ≤ 5000 ∧
    (listenerStep env obs s).1.ls.sent_buffer.length ≤ 40 := by
  cases obs with
  | offline => exact ⟨h1, h2⟩
  | raisesErr e => exact ⟨h1, h2⟩
  | raisesMid pre m reached e =>
      have h := batchGo_caps env pre s h1 h2
      show (insertMessage (batchGo env s pre).1 m).ls.processed_order.length
          ≤ 5000 ∧
        (insertMessage (batchGo env s pre).1 m).ls.sent_buffer.length ≤ 40
      refine ⟨insertMessage_caps _ m h.1, ?_⟩
      rw [insertMessage_sent]
      exact h.2
  | restored msgs =>
      have h := batchGo_caps env msgs.reverse
        ⟨s.ls, { s.stab with reconnect_attempts := 0 }⟩ h1 h2
      show (updateInterval _ (resyncStep _)).processed_order.length ≤ 5000 ∧
        (updateInterval _ (resyncStep _)).sent_buffer.length ≤ 40
      rw [show ∀ b ls, (updateInterval b ls).processed_order =
            ls.processed_order from fun _ _ => rfl,
          show ∀ b ls, (updateInterval b ls).sent_buffer =
            ls.sent_buffer from fun _ _ => rfl,
          (resyncStep_frame _).2.1, (resyncStep_frame _).2.2]
      exact h
  | online msgs =>
      have h := batchGo_caps env msgs.reverse s h1 h2
      show (updateInterval _ (resyncStep _)).processed_order.length ≤ 5000 ∧
        (updateInterval _ (resyncStep _)).sent_buffer.length ≤ 40
      rw [show ∀ b ls, (updateInterval b ls).processed_order =
            ls.processed_order from fun _ _ => rfl,
          show ∀ b ls, (updateInterval b ls).sent_buffer =
            ls.sent_buffer from fun _ _ => rfl,
          (resyncStep_frame _).2.1, (resyncStep_frame _).2.2]
      exact h

theorem listenerRun_caps (steps : List (CycleEnv × CycleObs)) :
    ∀ s : LoopState,
      s.ls.processed_order.length ≤ 5000 → s.ls.sent_buffer.length ≤ 40 →
      (listenerRun steps s).1.ls.processed_order.length ≤ 5000 ∧
      (listenerRun steps s).1.ls.sent_buffer.length ≤ 40 := by
  induction steps with
  | nil => intro s h1 h2; exact ⟨h1, h2⟩
  | cons p rest ih =>
      intro s h1 h2
      have h := listenerStep_caps p.1 p.2 s h1 h2
      exact ih (listenerStep p.1 p.2 s).1 h.1 h.2

/-- C5: over every run of poll cycles from the initial listener state, the
dedup deque holds at most 5000 keys and the echo buffer at most 40 replies;
an append to a full deque drops the oldest element. -/
theorem bounded_memory :
    (∀ (steps : List (CycleEnv × CycleObs)) (st0 : StabilityState),
      (listenerRun steps ⟨initListener, st0⟩).1.ls.processed_order.length ≤ 5000 ∧
      (listenerRun steps ⟨initListener, st0⟩).1.ls.sent_buffer.length ≤ 40) ∧
    (∀ (xs : List String) (x : String), xs.length = 5000 →
      dequeAppend 5000 xs x = xs.tail ++ [x]) ∧
    (∀ (xs : List String) (x : String), xs.length = 40 →
      dequeAppend 40 xs x = xs.tail ++ [x]) := by
  refine ⟨fun steps st0 => listenerRun_caps steps ⟨initListener, st0⟩
    (by simp [initListener]) (by simp [initListener]), ?_, ?_⟩ <;>
  · intro xs x h
    rw [dequeAppend_eq _ xs x (by omega), h]
    have : xs.length + 1 - xs.length = 1 := by omega
    rw [h] at this
    rw [this, List.drop_one]

/-- Witness for C5: the eviction equations applied to full buffers, and the
bound after one concrete cycle. -/
theorem bounded_memory_witness :
    (dequeAppend 5000 (List.replicate 5000 "k") "x" =
      (List.replicate 5000 "k").tail ++ ["x"]) ∧
    (dequeAppend 40 (List.replicate 40 "r") "y" =
      (List.replicate 40 "r").tail ++ ["y"]) ∧
    ((listenerRun [(envNoReply, CycleObs.online [cexMsg 0])]
        ⟨initListener, stab0⟩).1.ls.processed_order.length ≤ 5000 ∧
      (listenerRun [(envNoReply, CycleObs.online [cexMsg 0])]
        ⟨initListener, stab0⟩).1.ls.sent_buffer.length ≤ 40) :=
  ⟨bounded_memory.2.1 (List.replicate 5000 "k") "x" (by rw [List.length_replicate]),
    bounded_memory.2.2 (List.replicate 40 "r") "y" (by rw [List.length_replicate]),
    bounded_memory.1 [(envNoReply, CycleObs.online [cexMsg 0])] stab0⟩

/-! ### C2 and C9: the poll-interval dynamics -/

theorem runOnline_interval (env : CycleEnv) (s : LoopState)
    (msgs : List Message) :
    ((runOnline env s msgs).2 = [] →
      (runOnline env s msgs).1.ls.poll_interval =
        min (s.ls.poll_interval * (6/5)) 3) ∧
    ((runOnline env s msgs).2 ≠ [] →
      (runOnline env s msgs).1.ls.poll_interval = 1/2) := by
  have hfr : (resyncStep (processBatch env s msgs).1.ls).poll_interval =
      s.ls.poll_interval := by
    rw [(resyncStep_frame _).1]
    exact batchGo_poll_interval env msgs.reverse s
  constructor <;> intro h
  · have h2 : (processBatch env s msgs).2.isEmpty = true := by
      rw [show (processBatch env s msgs).2 = (runOnline env s msgs).2 from rfl, h]
      rfl
    show (updateInterval (!(processBatch env s msgs).2.isEmpty)
      (resyncStep (processBatch env s msgs).1.ls)).poll_interval = _
    rw [h2]
    show min ((resyncStep (processBatch env s msgs).1.ls).poll_interval * (6/5))
      max_interval = _
    rw [hfr]
    rfl
  · have h2 : (processBatch env s msgs).2.isEmpty = false := by
      rcases hl : (processBatch env s msgs).2 with _ | _
      · exact absurd hl h
      · rfl
    show (updateInterval (!(processBatch env s msgs).2.isEmpty)
      (resyncStep (processBatch env s msgs).1.ls)).poll_interval = _
    rw [h2]
    rfl

theorem listenerStep_interval_idle (env : CycleEnv) (obs : CycleObs)
    (s : LoopState) (hobs : obs.isErr = false)
    (hkeys : (listenerStep env obs s).2 = []) :
    (listenerStep env obs s).1.ls.poll_interval =
      min (s.ls.poll_interval * (6/5)) 3 := by
  cases obs with
  | offline => rfl
  | raisesErr e => simp [CycleObs.isErr] at hobs
  | raisesMid pre m reached e => simp [CycleObs.isErr] at hobs
  | restored msgs =>
      exact (runOnline_interval env ⟨s.ls, _⟩ msgs).1 hkeys
  | online msgs => exact (runOnline_interval env s msgs).1 hkeys

theorem listenerStep_interval_busy (env : CycleEnv) (obs : CycleObs)
    (s : LoopState) (hobs : obs.isErr = false)
    (hkeys : (listenerStep env obs s).2 ≠ []) :
    (listenerStep env obs s).1.ls.poll_interval = 1/2 := by
  cases obs with
  | offline => exact absurd rfl hkeys
  | raisesErr e => simp [CycleObs.isErr] at hobs
  | raisesMid pre m reached e => simp [CycleObs.isErr] at hobs
  | restored msgs =>
      exact (runOnline_interval env ⟨s.ls, _⟩ msgs).2 hkeys
  | online msgs => exact (runOnline_interval env s msgs).2 hkeys

theorem min_cap_pow (a : ℚ) (n : Nat) (ha : 0 < a) :
    min (min a 3 * (6/5)^n) 3 = min (a * (6/5)^n) 3 := by
  rcases le_total a 3 with h | h
  · rw [min_eq_left h]
  · rw [min_eq_right h]
    have hq : (1:ℚ) ≤ (6/5)^n := one_le_pow₀ (by norm_num)
    have h3 : (3:ℚ) ≤ 3 * (6/5)^n := by nlinarith
    have h4 : (3:ℚ) ≤ a * (6/5)^n := by nlinarith
    rw [min_eq_right h3, min_eq_right h4]

theorem listenerRun_interval_idle (steps : List (CycleEnv × CycleObs)) :
    ∀ s : LoopState, 0 < s.ls.poll_interval → s.ls.poll_interval ≤ 3 →
      (∀ p ∈ steps, p.2.isErr = false) →
      (∀ ks ∈ (listenerRun steps s).2, ks = []) →
      (listenerRun steps s).1.ls.poll_interval =
        min (s.ls.poll_interval * (6/5)^steps.length) 3 := by
  induction steps with
  | nil =>
      intro s h0 h3 _ _
      show s.ls.poll_interval = min (s.ls.poll_interval * (6/5)^(0:Nat)) 3
      rw [pow_zero, mul_one, min_eq_left h3]
  | cons p rest ih =>
      intro s h0 h3 herr hkeys
      have hkeys' : (listenerStep p.1 p.2 s).2 = [] :=
        hkeys _ (List.mem_cons_self _ _)
      have hstep := listenerStep_interval_idle p.1 p.2 s
        (herr p (List.mem_cons_self _ _)) hkeys'
      have h0' : 0 < (listenerStep p.1 p.2 s).1.ls.poll_interval := by
        rw [hstep]
        exact lt_min (mul_pos h0 (by norm_num)) (by norm_num)
      have h3' : (listenerStep p.1 p.2 s).1.ls.poll_interval ≤ 3 := by
        rw [hstep]; exact min_le_right _ _
      have IH := ih (listenerStep p.1 p.2 s).1 h0' h3'
        (fun q hq => herr q (List.mem_cons_of_mem _ hq))
        (fun ks hks => hkeys ks (List.mem_cons_of_mem _ hks))
      show (listenerRun rest (listenerStep p.1 p.2 s).1).1.ls.poll_interval = _
      rw [IH, hstep, min_cap_pow _ rest.length (mul_pos h0 (by norm_num))]
      congr 1
      rw [List.length_cons, pow_succ]
      ring

/-- C2: starting from the initial interval 1.0, after `k` consecutive
non-erroring idle cycles the poll interval equals `min(1.0 * 1.2^k, 3.0)`,
and any non-erroring cycle that dispatches at least one message resets the
interval to 0.5. -/
theorem backoff_law :
    (∀ (steps : List (CycleEnv × CycleObs)) (s : LoopState),
      s.ls.poll_interval = 1 →
      (∀ p ∈ steps, p.2.isErr = false) →
      (∀ ks ∈ (listenerRun steps s).2, ks = []) →
      (listenerRun steps s).1.ls.poll_interval =
        min (1 * (6/5 : ℚ) ^ steps.length) 3) ∧
    (∀ (env : CycleEnv) (obs : CycleObs) (s : LoopState),
      obs.isErr = false → (listenerStep env obs s).2 ≠ [] →
      (listenerStep env obs s).1.ls.poll_interval = 1/2) := by
  constructor
  · intro steps s h1 herr hkeys
    have h := listenerRun_interval_idle steps s (by rw [h1]; norm_num)
      (by rw [h1]; norm_num) herr hkeys
    rw [h, h1]
  · exact listenerStep_interval_busy

/-- Witness for C2: two idle offline cycles from the initial state give
interval `min(1.2^2, 3)`, and one busy cycle resets to 0.5. -/
theorem backoff_law_witness :
    ((listenerRun [(envNoReply, CycleObs.offline), (envNoReply, CycleObs.offline)]
        ⟨initListener, stab0⟩).1.ls.poll_interval = min (1 * (6/5 : ℚ)^2) 3) ∧
    ((listenerStep envNoReply (CycleObs.online [cexMsg 1])
        ⟨initListener, stab0⟩).1.ls.poll_interval = 1/2) := by
  constructor
  · refine backoff_law.1 _ _ rfl ?_ ?_
    · intro p hp
      rcases List.mem_cons.mp hp with rfl | hp
      · rfl
      · rcases List.mem_cons.mp hp with rfl | hp
        · rfl
        · cases hp
    · intro ks hks
      have h : (listenerRun [(envNoReply, CycleObs.offline),
          (envNoReply, CycleObs.offline)] ⟨initListener, stab0⟩).2 =
          [[], []] := rfl
      rw [h] at hks
      rcases List.mem_cons.mp hks with rfl | hks
      · rfl
      · rcases List.mem_cons.mp hks with rfl | hks
        · rfl
        · cases hks
  · exact backoff_law.2 envNoReply _ _ rfl (by decide)

theorem handleMessage_skip (env : CycleEnv) (t : LoopState) (m : Message)
    (h : unique_key m = "" ∨ unique_key m ∈ t.ls.processed_set ∨
      (content m ≠ "" ∧ content m ∈ t.ls.sent_buffer)) :
    (handleMessage env t m).2 = false ∧
    (handleMessage env t m).1.ls.sent_buffer = t.ls.sent_buffer ∧
    t.ls.processed_set ⊆ (handleMessage env t m).1.ls.processed_set := by
  unfold handleMessage
  dsimp only
  by_cases hk : unique_key m = ""
  · rw [if_pos hk]
    exact ⟨rfl, rfl, Finset.Subset.refl _⟩
  · rw [if_neg hk]
    by_cases hs : unique_key m ∈ t.ls.processed_set
    · rw [if_pos hs]
      exact ⟨rfl, rfl, Finset.Subset.refl _⟩
    · rw [if_neg hs]
      have hecho : content m ≠ "" ∧ content m ∈ t.ls.sent_buffer := by
        rcases h with h | h | h
        · exact absurd h hk
        · exact absurd h hs
        · exact h
      rw [if_pos hecho]
      exact ⟨rfl, rfl, Finset.subset_insert _ _⟩

theorem batchGo_skipped (env : CycleEnv) (base : LoopState)
    (l : List Message) :
    ∀ t : LoopState,
      t.ls.sent_buffer = base.ls.sent_buffer →
      base.ls.processed_set ⊆ t.ls.processed_set →
      (∀ m ∈ l, unique_key m = "" ∨ unique_key m ∈ base.ls.processed_set ∨
        (content m ≠ "" ∧ content m ∈ base.ls.sent_buffer)) →
      (batchGo env t l).2 = [] ∧
      (batchGo env t l).1.ls.sent_buffer = base.ls.sent_buffer ∧
      base.ls.processed_set ⊆ (batchGo env t l).1.ls.processed_set := by
  induction l with
  | nil => intro t h1 h2 _; exact ⟨rfl, h1, h2⟩
  | cons m rest ih =>
      intro t h1 h2 hall
      have hm : unique_key m = "" ∨ unique_key m ∈ t.ls.processed_set ∨
          (content m ≠ "" ∧ content m ∈ t.ls.sent_buffer) := by
        rcases hall m (List.mem_cons_self _ _) with h | h | h
        · exact Or.inl h
        · exact Or.inr (Or.inl (h2 h))
        · exact Or.inr (Or.inr ⟨h.1, by rw [h1]; exact h.2⟩)
      have hr := handleMessage_skip env t m hm
      have hrest := ih (handleMessage env t m).1 (hr.2.1.trans h1)
        (Finset.Subset.trans h2 hr.2.2)
        (fun q hq => hall q (List.mem_cons_of_mem _ hq))
      refine ⟨?_, hrest.2.1, hrest.2.2⟩
      show ((if (handleMessage env t m).2 then [unique_key m] else []) ++
        (batchGo env (handleMessage env t m).1 rest).2) = []
      rw [hr.1, hrest.1]
      rfl

/-- C9: an online cycle in which every fetched message is skipped (empty
dedup key, already-seen key, or echo of a sent reply) is idle for the
backoff: the interval is multiplied by 1.2 and capped at 3.0; the reset to
0.5 happens exactly when at least one message reaches the dispatch call. -/
theorem skipped_cycle_idle :
    (∀ (env : CycleEnv) (msgs : List Message) (s : LoopState),
      (∀ m ∈ msgs, unique_key m = "" ∨ unique_key m ∈ s.ls.processed_set ∨
        (content m ≠ "" ∧ content m ∈ s.ls.sent_buffer)) →
      (listenerStep env (CycleObs.online msgs) s).2 = [] ∧
      (listenerStep env (CycleObs.online msgs) s).1.ls.poll_interval =
        min (s.ls.poll_interval * (6/5)) 3) ∧
    (∀ (env : CycleEnv) (msgs : List Message) (s : LoopState),
      (listenerStep env (CycleObs.online msgs) s).2 ≠ [] →
      (listenerStep env (CycleObs.online msgs) s).1.ls.poll_interval = 1/2) := by
  constructor
  · intro env msgs s hall
    have hb := batchGo_skipped env s msgs.reverse s rfl (Finset.Subset.refl _)
      (fun m hm => hall m (List.mem_reverse.mp hm))
    have hkeys : (listenerStep env (CycleObs.online msgs) s).2 = [] := hb.1
    exact ⟨hkeys, listenerStep_interval_idle env _ s rfl hkeys⟩
  · intro env msgs s h
    exact listenerStep_interval_busy env _ s rfl h

/-- Witness for C9: a cycle whose only message is an echo of the single
buffered reply backs the interval off instead of resetting it. -/
theorem skipped_cycle_idle_witness :
    ((listenerStep envNoReply (CycleObs.online [⟨"", " pong ", "text"⟩])
        ⟨⟨[], ∅, ["pong"], 1⟩, stab0⟩).2 = [] ∧
      (listenerStep envNoReply (CycleObs.online [⟨"", " pong ", "text"⟩])
        ⟨⟨[], ∅, ["pong"], 1⟩, stab0⟩).1.ls.poll_interval =
        min ((1 : ℚ) * (6/5)) 3) ∧
    ((listenerStep envNoReply (CycleObs.online [cexMsg 2])
        ⟨initListener, stab0⟩).1.ls.poll_interval = 1/2) := by
  refine ⟨skipped_cycle_idle.1 envNoReply _ _ ?_, skipped_cycle_idle.2 envNoReply _ _ (by decide)⟩
  intro m hm
  rcases List.mem_cons.mp hm with rfl | hm
  · exact Or.inr (Or.inr ⟨by decide, by decide⟩)
  · cases hm

/-! ### C6: drift between processed_set and processed_order -/

theorem dequeAppend_toFinset_subset (n : Nat) (xs : List String) (x : String)
    (h : 0 < n) :
    (dequeAppend n xs x).toFinset ⊆ insert x xs.toFinset := by
  rw [dequeAppend_eq _ _ _ h, List.toFinset_append]
  intro y hy
  rcases Finset.mem_union.mp hy with hy | hy
  · exact Finset.mem_insert_of_mem
      (List.mem_toFinset.mpr ((List.drop_sublist _ _).subset
        (List.mem_toFinset.mp hy)))
  · rw [List.mem_toFinset, List.mem_singleton] at hy
    rw [hy]
    exact Finset.mem_insert_self _ _

theorem handleMessage_superset (env : CycleEnv) (s : LoopState) (m : Message)
    (h : s.ls.processed_order.toFinset ⊆ s.ls.processed_set) :
    (handleMessage env s m).1.ls.processed_order.toFinset ⊆
      (handleMessage env s m).1.ls.processed_set := by
  unfold handleMessage
  dsimp only
  split_ifs <;>
    first
      | exact h
      | exact Finset.Subset.trans
          (dequeAppend_toFinset_subset _ _ _ (by norm_num [orderCap]))
          (Finset.insert_subset_insert _ h)

theorem batchGo_superset (env : CycleEnv) (l : List Message) :
    ∀ s : LoopState,
      s.ls.processed_order.toFinset ⊆ s.ls.processed_set →
      (batchGo env s l).1.ls.processed_order.toFinset ⊆
        (batchGo env s l).1.ls.processed_set := by
  induction l with
  | nil => intro s h; exact h
  | cons m rest ih =>
      intro s h
      exact ih (handleMessage env s m).1 (handleMessage_superset env s m h)

theorem resyncStep_drift (ls : ListenerState)
    (h : ls.processed_order.toFinset ⊆ ls.processed_set) :
    (resyncStep ls).processed_order.toFinset ⊆ (resyncStep ls).processed_set ∧
    (resyncStep ls).processed_set.card ≤
      (resyncStep ls).processed_order.length + 100 := by
  unfold resyncStep
  split
  · refine ⟨Finset.Subset.refl _, ?_⟩
    show ls.processed_order.toFinset.card ≤ ls.processed_order.length + 100
    exact le_trans (List.toFinset_card_le _) (Nat.le_add_right _ _)
  · exact ⟨h, Nat.le_of_not_lt (by assumption)⟩

theorem insertMessage_superset (s : LoopState) (m : Message)
    (h : s.ls.processed_order.toFinset ⊆ s.ls.processed_set) :
    (insertMessage s m).ls.processed_order.toFinset ⊆
      (insertMessage s m).ls.processed_set := by
  unfold insertMessage
  dsimp only
  split_ifs <;>
    first
      | exact h
      | exact Finset.Subset.trans
          (dequeAppend_toFinset_subset _ _ _ (by norm_num [orderCap]))
          (Finset.insert_subset_insert _ h)

theorem listenerStep_superset (env : CycleEnv) (obs : CycleObs) (s : LoopState)
    (h1 : s.ls.processed_order.toFinset ⊆ s.ls.processed_set) :
    (listenerStep env obs s).1.ls.processed_order.toFinset ⊆
      (listenerStep env obs s).1.ls.processed_set := by
  cases obs with
  | offline => exact h1
  | raisesErr e => exact h1
  | raisesMid pre m reached e =>
      exact insertMessage_superset _ m (batchGo_superset env pre s h1)
  | restored msgs =>
      exact (resyncStep_drift _ (batchGo_superset env msgs.reverse
        ⟨s.ls, { s.stab with reconnect_attempts := 0 }⟩ h1)).1
  | online msgs =>
      exact (resyncStep_drift _ (batchGo_superset env msgs.reverse s h1)).1

theorem listenerRun_superset (steps : List (CycleEnv × CycleObs)) :
    ∀ s : LoopState,
      s.ls.processed_order.toFinset ⊆ s.ls.processed_set →
      (listenerRun steps s).1.ls.processed_order.toFinset ⊆
        (listenerRun steps s).1.ls.processed_set := by
  induction steps with
  | nil => intro s h1; exact h1
  | cons p rest ih =>
      intro s h1
      exact ih (listenerStep p.1 p.2 s).1 (listenerStep_superset p.1 p.2 s h1)

theorem listenerStep_drift (env : CycleEnv) (obs : CycleObs) (s : LoopState)
    (hobs : obs.isMidErr = false)
    (h1 : s.ls.processed_order.toFinset ⊆ s.ls.processed_set)
    (h2 : s.ls.processed_set.card ≤ s.ls.processed_order.length + 100) :
    (listenerStep env obs s).1.ls.processed_order.toFinset ⊆
      (listenerStep env obs s).1.ls.processed_set ∧
    (listenerStep env obs s).1.ls.processed_set.card ≤
      (listenerStep env obs s).1.ls.processed_order.length + 100 := by
  cases obs with
  | offline => exact ⟨h1, h2⟩
  | raisesErr e => exact ⟨h1, h2⟩
  | raisesMid pre m reached e => simp [CycleObs.isMidErr] at hobs
  | restored msgs =>
      exact resyncStep_drift _ (batchGo_superset env msgs.reverse ⟨s.ls, _⟩ h1)
  | online msgs =>
      exact resyncStep_drift _ (batchGo_superset env msgs.reverse s h1)

theorem listenerRun_drift (steps : List (CycleEnv × CycleObs)) :
    ∀ s : LoopState,
      (∀ p ∈ steps, p.2.isMidErr = false) →
      s.ls.processed_order.toFinset ⊆ s.ls.processed_set →
      s.ls.processed_set.card ≤ s.ls.processed_order.length + 100 →
      (listenerRun steps s).1.ls.processed_order.toFinset ⊆
        (listenerRun steps s).1.ls.processed_set ∧
      (listenerRun steps s).1.ls.processed_set.card ≤
        (listenerRun steps s).1.ls.processed_order.length + 100 := by
  induction steps with
  | nil => intro s _ h1 h2; exact ⟨h1, h2⟩
  | cons p rest ih =>
      intro s hmid h1 h2
      have h := listenerStep_drift p.1 p.2 s
        (hmid p (List.mem_cons_self p rest)) h1 h2
      exact ih (listenerStep p.1 p.2 s).1
        (fun q hq => hmid q (List.mem_cons_of_mem p hq)) h.1 h.2

/-- C6 (amended): the drift invariant as stated is false of the program,
because an exception escaping from inside the message loop leaves the
committed dedup insertions behind and skips the resync check, so the excess
of `processed_set` over `processed_order` can pass 100 at such a boundary
(see the counterexample). What does hold: (a) at every cycle boundary of
every run from the initial state, `processed_set` is a superset of
`set(processed_order)`; (b) over runs in which no cycle dies by a mid-batch
exception, the excess stays at most 100 at every boundary; (c) in a cycle
that completes its batch, the resync to exactly `set(processed_order)`
fires precisely when the count exceeds the deque length by more than 100,
and otherwise the set is left as the batch left it. -/
theorem processed_set_drift :
    (∀ (steps : List (CycleEnv × CycleObs)) (st0 : StabilityState),
      (listenerRun steps ⟨initListener, st0⟩).1.ls.processed_order.toFinset ⊆
        (listenerRun steps ⟨initListener, st0⟩).1.ls.processed_set) ∧
    (∀ (steps : List (CycleEnv × CycleObs)) (st0 : StabilityState),
      (∀ p ∈ steps, p.2.isMidErr = false) →
      (listenerRun steps ⟨initListener, st0⟩).1.ls.processed_set.card ≤
        (listenerRun steps ⟨initListener, st0⟩).1.ls.processed_order.length
          + 100) ∧
    (∀ (env : CycleEnv) (s : LoopState) (msgs : List Message),
      ((processBatch env s msgs).1.ls.processed_order.length + 100 <
          (processBatch env s msgs).1.ls.processed_set.card →
        (listenerStep env (CycleObs.online msgs) s).1.ls.processed_set =
          (listenerStep env (CycleObs.online msgs) s).1.ls.processed_order.toFinset) ∧
      (¬ (processBatch env s msgs).1.ls.processed_order.length + 100 <
          (processBatch env s msgs).1.ls.processed_set.card →
        (listenerStep env (CycleObs.online msgs) s).1.ls.processed_set =
          (processBatch env s msgs).1.ls.processed_set)) := by
  refine ⟨?_, ?_, ?_⟩
  · intro steps st0
    exact listenerRun_superset steps ⟨initListener, st0⟩ (by simp [initListener])
  · intro steps st0 hmid
    exact (listenerRun_drift steps ⟨initListener, st0⟩ hmid
      (by simp [initListener]) (by simp [initListener])).2
  · intro env s msgs
    constructor <;> intro hc
    · show (resyncStep (processBatch env s msgs).1.ls).processed_set =
        (resyncStep (processBatch env s msgs).1.ls).processed_order.toFinset
      unfold resyncStep
      rw [if_pos hc]
    · show (resyncStep (processBatch env s msgs).1.ls).processed_set = _
      unfold resyncStep
      rw [if_neg hc]

/-- Witness for the amended C6: a concrete one-cycle run without a mid-batch
exception satisfies the superset relation and the drift bound, and on that
cycle the resync does not fire. -/
theorem processed_set_drift_witness :
    ((listenerRun [(envNoReply, CycleObs.online [cexMsg 0])]
        ⟨initListener, stab0⟩).1.ls.processed_order.toFinset ⊆
      (listenerRun [(envNoReply, CycleObs.online [cexMsg 0])]
        ⟨initListener, stab0⟩).1.ls.processed_set ∧
      (listenerRun [(envNoReply, CycleObs.online [cexMsg 0])]
        ⟨initListener, stab0⟩).1.ls.processed_set.card ≤
        (listenerRun [(envNoReply, CycleObs.online [cexMsg 0])]
          ⟨initListener, stab0⟩).1.ls.processed_order.length + 100) ∧
    (listenerStep envNoReply (CycleObs.online [cexMsg 0])
        ⟨initListener, stab0⟩).1.ls.processed_set =
      (processBatch envNoReply ⟨initListener, stab0⟩ [cexMsg 0]).1.ls.processed_set :=
  ⟨⟨processed_set_drift.1 [(envNoReply, CycleObs.online [cexMsg 0])] stab0,
      processed_set_drift.2.1 [(envNoReply, CycleObs.online [cexMsg 0])] stab0
        (by
          intro p hp
          rcases List.mem_cons.mp hp with h | h
          · rw [h]
            rfl
          · cases h)⟩,
    (processed_set_drift.2.2 envNoReply ⟨initListener, stab0⟩ [cexMsg 0]).2
      (by decide)⟩

/-! ### C10 and C3: the heartbeat reconnect machine -/

theorem heartbeatTick_success (maxA : Nat) (now : ℚ) (iso : String)
    (s : HBState) (hlog : s.logged_in = true)
    (hcap : s.stab.reconnect_attempts + 1 ≤ maxA) :
    heartbeatTick maxA now iso (HBObs.probe "loginout" true) s =
      (⟨true, { s.stab with
          last_heartbeat := now
          reconnect_attempts := s.stab.reconnect_attempts + 1 }⟩,
        [HBEvent.detected, HBEvent.attempted]) := by
  unfold heartbeatTick
  dsimp only
  rw [hlog, if_pos rfl, if_pos rfl, if_pos hcap]

/-- C10: a logout recovery performed by the heartbeat monitor itself leaves
the incremented `reconnect_attempts` in place even when the reconnect
succeeds, so two recovered logout episodes accumulate two attempts; only
the listener path that observes a restored login resets the counter to 0. -/
theorem heartbeat_reconnect_no_reset (maxA : Nat) (now now2 : ℚ)
    (iso iso2 : String) (s : HBState) (hlog : s.logged_in = true)
    (hcap : s.stab.reconnect_attempts + 2 ≤ maxA) :
    (heartbeatTick maxA now iso (HBObs.probe "loginout" true) s).1.logged_in
      = true ∧
    (heartbeatTick maxA now iso
        (HBObs.probe "loginout" true) s).1.stab.reconnect_attempts =
      s.stab.reconnect_attempts + 1 ∧
    (heartbeatTick maxA now2 iso2 (HBObs.probe "loginout" true)
        (heartbeatTick maxA now iso
          (HBObs.probe "loginout" true) s).1).1.stab.reconnect_attempts =
      s.stab.reconnect_attempts + 2 ∧
    (∀ (env : CycleEnv) (msgs : List Message) (t : LoopState),
      (listenerStep env (CycleObs.restored msgs) t).1.stab.reconnect_attempts
        = 0) := by
  have h1 := heartbeatTick_success maxA now iso s hlog (by omega)
  refine ⟨by rw [h1], by rw [h1], ?_, ?_⟩
  · have h2 := heartbeatTick_success maxA now2 iso2
      ⟨true, { s.stab with
        last_heartbeat := now
        reconnect_attempts := s.stab.reconnect_attempts + 1 }⟩ rfl (by
          show s.stab.reconnect_attempts + 1 + 1 ≤ maxA
          omega)
    rw [h1, h2]
  · intro env msgs t
    show (batchGo env ⟨t.ls, { t.stab with reconnect_attempts := 0 }⟩
      msgs.reverse).1.stab.reconnect_attempts = 0
    rw [(batchGo_stab_frame env msgs.reverse _).1]

/-- Witness for C10 at concrete inputs. -/
theorem heartbeat_reconnect_no_reset_witness :
    (heartbeatTick 10 0 "t" (HBObs.probe "loginout" true) ⟨true, stab0⟩).1.logged_in
      = true ∧
    (heartbeatTick 10 0 "t"
        (HBObs.probe "loginout" true) ⟨true, stab0⟩).1.stab.reconnect_attempts
      = stab0.reconnect_attempts + 1 ∧
    (heartbeatTick 10 1 "u" (HBObs.probe "loginout" true)
        (heartbeatTick 10 0 "t"
          (HBObs.probe "loginout" true) ⟨true, stab0⟩).1).1.stab.reconnect_attempts
      = stab0.reconnect_attempts + 2 ∧
    (∀ (env : CycleEnv) (msgs : List Message) (t : LoopState),
      (listenerStep env (CycleObs.restored msgs) t).1.stab.reconnect_attempts
        = 0) :=
  heartbeat_reconnect_no_reset 10 0 1 "t" "u" ⟨true, stab0⟩ rfl (by decide)

theorem hbApply_cases (maxA : Nat) (p : HBStep) (s : HBState) :
    ((hbApply maxA p s).1.stab.reconnect_attempts = s.stab.reconnect_attempts ∧
      countDetected (hbApply maxA p s).2 = 0 ∧
      HBEvent.attempted ∉ (hbApply maxA p s).2) ∨
    ((hbApply maxA p s).1.stab.reconnect_attempts =
        s.stab.reconnect_attempts + 1 ∧
      countDetected (hbApply maxA p s).2 = 1 ∧
      s.stab.reconnect_attempts + 1 ≤ maxA ∧
      HBEvent.attempted ∈ (hbApply maxA p s).2) ∨
    ((hbApply maxA p s).1.stab.reconnect_attempts =
        s.stab.reconnect_attempts + 1 ∧
      countDetected (hbApply maxA p s).2 = 1 ∧
      maxA < s.stab.reconnect_attempts + 1 ∧
      HBEvent.attempted ∉ (hbApply maxA p s).2 ∧
      HBEvent.errorAdded (maxReachedMsg maxA) ∈ (hbApply maxA p s).2) := by
  unfold hbApply heartbeatTick
  cases p.obs with
  | fails e =>
      left
      exact ⟨rfl, by simp [countDetected], by simp⟩
  | probe status rOk =>
      dsimp only
      by_cases h1 : (s.logged_in || p.externRestore) = true
      · rw [h1]
        by_cases h2 : status = "loginout"
        · rw [if_pos h2]
          by_cases h3 : s.stab.reconnect_attempts + 1 ≤ maxA
          · rw [if_pos h3]
            right; left
            exact ⟨rfl, by simp [countDetected], h3, by simp⟩
          · rw [if_neg h3]
            right; right
            exact ⟨rfl, by simp [countDetected], by omega, by simp, by simp⟩
        · rw [if_neg h2]
          left
          exact ⟨rfl, by simp [countDetected], by simp⟩
      · rw [Bool.not_eq_true] at h1
        rw [h1]
        left
        exact ⟨rfl, by simp [countDetected], by simp⟩

theorem heartbeatRun_attempts (maxA : Nat) (steps : List HBStep) :
    ∀ s : HBState,
      (heartbeatRun maxA steps s).1.stab.reconnect_attempts =
        s.stab.reconnect_attempts +
          countDetected (heartbeatRun maxA steps s).2 := by
  induction steps with
  | nil => intro s; simp [heartbeatRun, countDetected]
  | cons p rest ih =>
      intro s
      show (heartbeatRun maxA rest (hbApply maxA p s).1).1.stab.reconnect_attempts =
        s.stab.reconnect_attempts +
          countDetected ((hbApply maxA p s).2 ++
            (heartbeatRun maxA rest (hbApply maxA p s).1).2)
      rw [ih (hbApply maxA p s).1]
      unfold countDetected
      rw [List.count_append]
      rcases hbApply_cases maxA p s with h | h | h <;>
        rw [h.1] <;> unfold countDetected at h <;> omega

theorem heartbeatRun_no_attempt (maxA : Nat) (steps : List HBStep) :
    ∀ s : HBState, maxA < s.stab.reconnect_attempts →
      HBEvent.attempted ∉ (heartbeatRun maxA steps s).2 := by
  induction steps with
  | nil => intro s _; simp [heartbeatRun]
  | cons p rest ih =>
      intro s hs
      show HBEvent.attempted ∉
        (hbApply maxA p s).2 ++ (heartbeatRun maxA rest (hbApply maxA p s).1).2
      rw [List.mem_append]
      push_neg
      rcases hbApply_cases maxA p s with h | h | h
      · exact ⟨h.2.2, ih (hbApply maxA p s).1 (by omega)⟩
      · omega
      · exact ⟨h.2.2.2.1, ih (hbApply maxA p s).1 (by omega)⟩

theorem heartbeatRun_threshold (maxA : Nat) (steps : List HBStep) :
    ∀ s : HBState, s.stab.reconnect_attempts ≤ maxA →
      maxA + 1 ≤ s.stab.reconnect_attempts +
        countDetected (heartbeatRun maxA steps s).2 →
      HBEvent.errorAdded (maxReachedMsg maxA) ∈ (heartbeatRun maxA steps s).2 := by
  induction steps with
  | nil =>
      intro s hle hge
      simp [heartbeatRun, countDetected] at hge
      omega
  | cons p rest ih =>
      intro s hle hge
      show HBEvent.errorAdded (maxReachedMsg maxA) ∈
        (hbApply maxA p s).2 ++ (heartbeatRun maxA rest (hbApply maxA p s).1).2
      have hcount : countDetected ((hbApply maxA p s).2 ++
          (heartbeatRun maxA rest (hbApply maxA p s).1).2) =
          countDetected (hbApply maxA p s).2 +
            countDetected (heartbeatRun maxA rest (hbApply maxA p s).1).2 := by
        unfold countDetected
        rw [List.count_append]
      rw [List.mem_append]
      rcases hbApply_cases maxA p s with h | h | h
      · refine Or.inr (ih (hbApply maxA p s).1 (by omega) ?_)
        rw [show (heartbeatRun maxA (p :: rest) s).2 =
          (hbApply maxA p s).2 ++
            (heartbeatRun maxA rest (hbApply maxA p s).1).2 from rfl,
          hcount] at hge
        omega
      · refine Or.inr (ih (hbApply maxA p s).1 (by omega) ?_)
        rw [show (heartbeatRun maxA (p :: rest) s).2 =
          (hbApply maxA p s).2 ++
            (heartbeatRun maxA rest (hbApply maxA p s).1).2 from rfl,
          hcount] at hge
        omega
      · exact Or.inl h.2.2.2.2

/-- C3: along heartbeat runs in which the counter is never reset by a
listener-observed recovery, the (maxReconnectAttempts + 1)-th logout
detection records the exhaustion entry, and from then on no automatic
reconnect attempt ever happens again. -/
theorem reconnect_cap (maxA : Nat) (steps₁ steps₂ : List HBStep) (s : HBState)
    (h0 : s.stab.reconnect_attempts = 0)
    (hdet : countDetected (heartbeatRun maxA steps₁ s).2 = maxA + 1) :
    HBEvent.errorAdded (maxReachedMsg maxA) ∈ (heartbeatRun maxA steps₁ s).2 ∧
    HBEvent.attempted ∉
      (heartbeatRun maxA steps₂ (heartbeatRun maxA steps₁ s).1).2 := by
  constructor
  · exact heartbeatRun_threshold maxA steps₁ s (by omega)
      (by rw [h0, hdet]; omega)
  · apply heartbeatRun_no_attempt
    rw [heartbeatRun_attempts maxA steps₁ s, h0, hdet]
    omega

/-- Witness for C3 with `maxReconnectAttempts = 1`: two logout detections
(the bot being manually re-logged-in in between, without a counter reset)
exhaust the budget; a third logged-in logout tick attempts no reconnect. -/
theorem reconnect_cap_witness :
    HBEvent.errorAdded (maxReachedMsg 1) ∈
      (heartbeatRun 1 [⟨false, 0, "t1", HBObs.probe "loginout" false⟩,
        ⟨true, 0, "t2", HBObs.probe "loginout" false⟩] ⟨true, stab0⟩).2 ∧
    HBEvent.attempted ∉
      (heartbeatRun 1 [⟨true, 0, "t3", HBObs.probe "loginout" true⟩]
        (heartbeatRun 1 [⟨false, 0, "t1", HBObs.probe "loginout" false⟩,
          ⟨true, 0, "t2", HBObs.probe "loginout" false⟩] ⟨true, stab0⟩).1).2 :=
  reconnect_cap 1 _ _ ⟨true, stab0⟩ rfl (by decide)

/-! ### C1: deduplication -/

theorem handleMessage_state (env : CycleEnv) (s : LoopState) (m : Message) :
    ((handleMessage env s m).1.ls.processed_set = s.ls.processed_set ∧
      (handleMessage env s m).1.ls.processed_order = s.ls.processed_order ∧
      (handleMessage env s m).2 = false ∧
      (unique_key m = "" ∨ unique_key m ∈ s.ls.processed_set)) ∨
    ((handleMessage env s m).1.ls.processed_set =
        insert (unique_key m) s.ls.processed_set ∧
      (handleMessage env s m).1.ls.processed_order =
        dequeAppend orderCap s.ls.processed_order (unique_key m) ∧
      unique_key m ∉ s.ls.processed_set ∧ unique_key m ≠ "") := by
  unfold handleMessage
  dsimp only
  by_cases hk : unique_key m = ""
  · rw [if_pos hk]
    exact Or.inl ⟨rfl, rfl, rfl, Or.inl hk⟩
  · rw [if_neg hk]
    by_cases hs : unique_key m ∈ s.ls.processed_set
    · rw [if_pos hs]
      exact Or.inl ⟨rfl, rfl, rfl, Or.inr hs⟩
    · rw [if_neg hs]
      by_cases hecho : content m ≠ "" ∧ content m ∈ s.ls.sent_buffer
      · rw [if_pos hecho]
        exact Or.inr ⟨rfl, rfl, hs, hk⟩
      · rw [if_neg hecho]
        split_ifs with hsend
        · exact Or.inr ⟨rfl, rfl, hs, hk⟩
        · exact Or.inr ⟨rfl, rfl, hs, hk⟩

theorem insertMessage_state (s : LoopState) (m : Message) :
    (insertMessage s m = s ∧
      (unique_key m = "" ∨ unique_key m ∈ s.ls.processed_set)) ∨
    ((insertMessage s m).ls.processed_set =
        insert (unique_key m) s.ls.processed_set ∧
      (insertMessage s m).ls.processed_order =
        dequeAppend orderCap s.ls.processed_order (unique_key m) ∧
      unique_key m ∉ s.ls.processed_set ∧ unique_key m ≠ "") := by
  unfold insertMessage
  dsimp only
  by_cases hk : unique_key m = ""
  · rw [if_pos hk]
    exact Or.inl ⟨rfl, Or.inl hk⟩
  · rw [if_neg hk]
    by_cases hs : unique_key m ∈ s.ls.processed_set
    · rw [if_pos hs]
      exact Or.inl ⟨rfl, Or.inr hs⟩
    · rw [if_neg hs]
      exact Or.inr ⟨rfl, rfl, hs, hk⟩

theorem handleMessage_dedup (env : CycleEnv) (s : LoopState) (m : Message)
    (D : List String)
    (hset : s.ls.processed_set = s.ls.processed_order.toFinset)
    (hnd : s.ls.processed_order.Nodup)
    (hD : ∀ k ∈ D, k ∈ s.ls.processed_set) (hDnd : D.Nodup)
    (hlen : s.ls.processed_order.length < 5000) :
    (D ++ (if (handleMessage env s m).2 then [unique_key m] else [])).Nodup ∧
    (∀ k ∈ D ++ (if (handleMessage env s m).2 then [unique_key m] else []),
      k ∈ (handleMessage env s m).1.ls.processed_set) ∧
    (handleMessage env s m).1.ls.processed_set =
      (handleMessage env s m).1.ls.processed_order.toFinset ∧
    (handleMessage env s m).1.ls.processed_order.Nodup ∧
    (handleMessage env s m).1.ls.processed_order.length ≤
      s.ls.processed_order.length + 1 := by
  rcases handleMessage_state env s m with ⟨h1, h2, h3, _⟩ | ⟨h1, h2, h3, _⟩
  · rw [h1, h2, h3]
    refine ⟨by simpa using hDnd, by simpa using hD, hset, hnd, Nat.le_succ _⟩
  · have hkey_order : unique_key m ∉ s.ls.processed_order := fun hmem =>
      h3 (hset ▸ List.mem_toFinset.mpr hmem)
    have horder : dequeAppend orderCap s.ls.processed_order (unique_key m) =
        s.ls.processed_order ++ [unique_key m] :=
      dequeAppend_of_lt _ _ _ hlen
    have hnew_set : insert (unique_key m) s.ls.processed_set =
        (s.ls.processed_order ++ [unique_key m]).toFinset := by
      rw [List.toFinset_append, hset]
      simp only [List.toFinset_cons, List.toFinset_nil, insert_emptyc_eq]
      rw [Finset.union_comm]
      exact (Finset.insert_eq _ _)
    have hnew_nodup : (s.ls.processed_order ++ [unique_key m]).Nodup := by
      rw [List.nodup_append]
      exact ⟨hnd, List.nodup_singleton _,
        fun a ha hb => hkey_order ((List.mem_singleton.mp hb) ▸ ha)⟩
    rw [h1, h2, horder]
    refine ⟨?_, ?_, hnew_set, hnew_nodup, by
      rw [List.length_append]; exact Nat.le_refl _⟩
    · by_cases hd : (handleMessage env s m).2
      · rw [if_pos hd, List.nodup_append]
        exact ⟨hDnd, List.nodup_singleton _,
          fun a ha hb => h3 ((List.mem_singleton.mp hb) ▸ hD a ha)⟩
      · rw [if_neg hd]
        simpa using hDnd
    · intro k hkm
      rcases List.mem_append.mp hkm with hkm | hkm
      · exact Finset.mem_insert_of_mem (hD k hkm)
      · by_cases hd : (handleMessage env s m).2
        · rw [if_pos hd, List.mem_singleton] at hkm
          rw [hkm]
          exact Finset.mem_insert_self _ _
        · rw [if_neg hd] at hkm
          cases hkm

theorem insertMessage_dedup (env : CycleEnv) (s : LoopState) (m : Message)
    (b : Bool) (D : List String)
    (hset : s.ls.processed_set = s.ls.processed_order.toFinset)
    (hnd : s.ls.processed_order.Nodup)
    (hD : ∀ k ∈ D, k ∈ s.ls.processed_set) (hDnd : D.Nodup)
    (hlen : s.ls.processed_order.length < 5000) :
    (D ++ (if b && (handleMessage env s m).2
      then [unique_key m] else [])).Nodup ∧
    (∀ k ∈ D ++ (if b && (handleMessage env s m).2
        then [unique_key m] else []),
      k ∈ (insertMessage s m).ls.processed_set) ∧
    (insertMessage s m).ls.processed_set =
      (insertMessage s m).ls.processed_order.toFinset ∧
    (insertMessage s m).ls.processed_order.Nodup ∧
    (insertMessage s m).ls.processed_order.length ≤
      s.ls.processed_order.length + 1 := by
  rcases insertMessage_state s m with ⟨heq, hk⟩ | ⟨h1, h2, hs, hkne⟩
  · have hflag : (handleMessage env s m).2 = false := by
      rcases handleMessage_state env s m with ⟨_, _, hf, _⟩ | ⟨_, _, hs2, hk2⟩
      · exact hf
      · rcases hk with hk | hk
        · exact absurd hk hk2
        · exact absurd hk hs2
    rw [heq, hflag, Bool.and_false]
    refine ⟨?_, ?_, hset, hnd, Nat.le_succ _⟩
    · simpa using hDnd
    · simpa using hD
  · have hkey_order : unique_key m ∉ s.ls.processed_order := fun hmem =>
      hs (hset ▸ List.mem_toFinset.mpr hmem)
    have horder : dequeAppend orderCap s.ls.processed_order (unique_key m) =
        s.ls.processed_order ++ [unique_key m] :=
      dequeAppend_of_lt _ _ _ hlen
    have hnew_set : insert (unique_key m) s.ls.processed_set =
        (s.ls.processed_order ++ [unique_key m]).toFinset := by
      rw [List.toFinset_append, hset]
      simp only [List.toFinset_cons, List.toFinset_nil, insert_emptyc_eq]
      rw [Finset.union_comm]
      exact (Finset.insert_eq _ _)
    have hnew_nodup : (s.ls.processed_order ++ [unique_key m]).Nodup := by
      rw [List.nodup_append]
      exact ⟨hnd, List.nodup_singleton _,
        fun a ha hb => hkey_order ((List.mem_singleton.mp hb) ▸ ha)⟩
    rw [h1, h2, horder]
    refine ⟨?_, ?_, hnew_set, hnew_nodup, by
      rw [List.length_append]; exact Nat.le_refl _⟩
    · by_cases hd : (b && (handleMessage env s m).2) = true
      · rw [if_pos hd, List.nodup_append]
        exact ⟨hDnd, List.nodup_singleton _,
          fun a ha hb => hs ((List.mem_singleton.mp hb) ▸ hD a ha)⟩
      · rw [if_neg hd]
        simpa using hDnd
    · intro k hkm
      rcases List.mem_append.mp hkm with hkm | hkm
      · exact Finset.mem_insert_of_mem (hD k hkm)
      · by_cases hd : (b && (handleMessage env s m).2) = true
        · rw [if_pos hd, List.mem_singleton] at hkm
          rw [hkm]
          exact Finset.mem_insert_self _ _
        · rw [if_neg hd] at hkm
          cases hkm

theorem batchGo_dedup (env : CycleEnv) (l : List Message) :
    ∀ (s : LoopState) (D : List String),
      s.ls.processed_set = s.ls.processed_order.toFinset →
      s.ls.processed_order.Nodup →
      (∀ k ∈ D, k ∈ s.ls.processed_set) → D.Nodup →
      s.ls.processed_order.length + l.length ≤ 5000 →
      (D ++ (batchGo env s l).2).Nodup ∧
      (∀ k ∈ D ++ (batchGo env s l).2,
        k ∈ (batchGo env s l).1.ls.processed_set) ∧
      (batchGo env s l).1.ls.processed_set =
        (batchGo env s l).1.ls.processed_order.toFinset ∧
      (batchGo env s l).1.ls.processed_order.Nodup ∧
      (batchGo env s l).1.ls.processed_order.length ≤
        s.ls.processed_order.length + l.length := by
  induction l with
  | nil =>
      intro s D h1 h2 h3 h4 h5
      refine ⟨?_, ?_, h1, h2, ?_⟩
      · show (D ++ ([] : List String)).Nodup
        simpa using h4
      · show ∀ k ∈ D ++ ([] : List String), k ∈ s.ls.processed_set
        simpa using h3
      · show s.ls.processed_order.length ≤
          s.ls.processed_order.length + List.length ([] : List Message)
        simp
  | cons m rest ih =>
      intro s D h1 h2 h3 h4 h5
      have h5' : s.ls.processed_order.length + (rest.length + 1) ≤ 5000 := by
        simpa [List.length_cons] using h5
      have hm := handleMessage_dedup env s m D h1 h2 h3 h4 (by omega)
      have ihh := ih (handleMessage env s m).1
        (D ++ (if (handleMessage env s m).2 then [unique_key m] else []))
        hm.2.2.1 hm.2.2.2.1 hm.2.1 hm.1 (by
          have := hm.2.2.2.2
          omega)
      refine ⟨?_, ?_, ihh.2.2.1, ihh.2.2.2.1, ?_⟩
      · show (D ++ ((if (handleMessage env s m).2 then [unique_key m] else [])
          ++ (batchGo env (handleMessage env s m).1 rest).2)).Nodup
        rw [← List.append_assoc]
        exact ihh.1
      · intro k hk
        apply ihh.2.1
        rw [List.append_assoc]
        exact hk
      · have := ihh.2.2.2.2
        have := hm.2.2.2.2
        show (batchGo env (handleMessage env s m).1 rest).1.ls.processed_order.length
          ≤ s.ls.processed_order.length + (m :: rest).length
        rw [List.length_cons]
        omega

theorem resyncStep_of_eq (ls : ListenerState)
    (hset : ls.processed_set = ls.processed_order.toFinset)
    (hnd : ls.processed_order.Nodup) : resyncStep ls = ls := by
  unfold resyncStep
  rw [if_neg (by rw [hset, List.toFinset_card_of_nodup hnd]; omega)]

theorem runOnline_dedup (env : CycleEnv) (s : LoopState) (msgs : List Message)
    (D : List String)
    (h1 : s.ls.processed_set = s.ls.processed_order.toFinset)
    (h2 : s.ls.processed_order.Nodup)
    (h3 : ∀ k ∈ D, k ∈ s.ls.processed_set) (h4 : D.Nodup)
    (h5 : s.ls.processed_order.length + msgs.length ≤ 5000) :
    (D ++ (runOnline env s msgs).2).Nodup ∧
    (∀ k ∈ D ++ (runOnline env s msgs).2,
      k ∈ (runOnline env s msgs).1.ls.processed_set) ∧
    (runOnline env s msgs).1.ls.processed_set =
      (runOnline env s msgs).1.ls.processed_order.toFinset ∧
    (runOnline env s msgs).1.ls.processed_order.Nodup ∧
    (runOnline env s msgs).1.ls.processed_order.length ≤
      s.ls.processed_order.length + msgs.length := by
  have hb := batchGo_dedup env msgs.reverse s D h1 h2 h3 h4
    (by simpa using h5)
  have hre : resyncStep (batchGo env s msgs.reverse).1.ls =
      (batchGo env s msgs.reverse).1.ls :=
    resyncStep_of_eq _ hb.2.2.1 hb.2.2.2.1
  refine ⟨hb.1, ?_, ?_, ?_, ?_⟩
  · intro k hk
    show k ∈ (updateInterval (!(batchGo env s msgs.reverse).2.isEmpty)
      (resyncStep (batchGo env s msgs.reverse).1.ls)).processed_set
    rw [hre]
    exact hb.2.1 k hk
  · show (updateInterval (!(batchGo env s msgs.reverse).2.isEmpty)
      (resyncStep (batchGo env s msgs.reverse).1.ls)).processed_set =
      (updateInterval (!(batchGo env s msgs.reverse).2.isEmpty)
        (resyncStep (batchGo env s msgs.reverse).1.ls)).processed_order.toFinset
    rw [hre]
    exact hb.2.2.1
  · show (updateInterval (!(batchGo env s msgs.reverse).2.isEmpty)
      (resyncStep (batchGo env s msgs.reverse).1.ls)).processed_order.Nodup
    rw [hre]
    exact hb.2.2.2.1
  · show (updateInterval (!(batchGo env s msgs.reverse).2.isEmpty)
      (resyncStep (batchGo env s msgs.reverse).1.ls)).processed_order.length ≤
      s.ls.processed_order.length + msgs.length
    rw [hre]
    have hup : (updateInterval (!(batchGo env s msgs.reverse).2.isEmpty)
        (batchGo env s msgs.reverse).1.ls).processed_order =
        (batchGo env s msgs.reverse).1.ls.processed_order := rfl
    rw [hup]
    have := hb.2.2.2.2
    have hrl : (msgs.reverse).length = msgs.length := by simp
    omega

theorem listenerRun_dedup (steps : List (CycleEnv × CycleObs)) :
    ∀ (s : LoopState) (D : List String),
      s.ls.processed_set = s.ls.processed_order.toFinset →
      s.ls.processed_order.Nodup →
      (∀ k ∈ D, k ∈ s.ls.processed_set) → D.Nodup →
      s.ls.processed_order.length + totalDelivered steps ≤ 5000 →
      (D ++ (listenerRun steps s).2.flatten).Nodup ∧
      (listenerRun steps s).1.ls.processed_set =
        (listenerRun steps s).1.ls.processed_order.toFinset ∧
      (listenerRun steps s).1.ls.processed_order.Nodup ∧
      (∀ k ∈ D ++ (listenerRun steps s).2.flatten,
        k ∈ (listenerRun steps s).1.ls.processed_set) ∧
      (listenerRun steps s).1.ls.processed_order.length ≤
        s.ls.processed_order.length + totalDelivered steps := by
  induction steps with
  | nil =>
      intro s D h1 h2 h3 h4 h5
      refine ⟨?_, h1, h2, ?_, ?_⟩
      · show (D ++ ([] : List String)).Nodup
        simpa using h4
      · show ∀ k ∈ D ++ ([] : List String), k ∈ s.ls.processed_set
        simpa using h3
      · show s.ls.processed_order.length ≤
          s.ls.processed_order.length + totalDelivered []
        simp [totalDelivered]
  | cons p rest ih =>
      rcases p with ⟨pe, po⟩
      intro s D h1 h2 h3 h4 h5
      cases po with
      | offline => exact ih ⟨updateInterval false s.ls, s.stab⟩ D h1 h2 h3 h4 h5
      | raisesErr e =>
          exact ih (listenerRescue pe.nowIso e ⟨s.ls, s.stab⟩) D h1 h2 h3 h4 h5
      | raisesMid pre m reached e =>
          have ht : totalDelivered
              ((pe, CycleObs.raisesMid pre m reached e) :: rest) =
              pre.length + 1 + totalDelivered rest := rfl
          have h5' : s.ls.processed_order.length +
              (pre.length + 1 + totalDelivered rest) ≤ 5000 := by
            rw [ht] at h5
            exact h5
          have hb := batchGo_dedup pe pre s D h1 h2 h3 h4 (by omega)
          have hlen2 : (batchGo pe s pre).1.ls.processed_order.length < 5000 := by
            have := hb.2.2.2.2
            omega
          have hi := insertMessage_dedup pe (batchGo pe s pre).1 m reached
            (D ++ (batchGo pe s pre).2) hb.2.2.1 hb.2.2.2.1 hb.2.1 hb.1 hlen2
          have ihh := ih
            (listenerStep pe (CycleObs.raisesMid pre m reached e) s).1
            ((D ++ (batchGo pe s pre).2) ++
              (if reached && (handleMessage pe (batchGo pe s pre).1 m).2
                then [unique_key m] else []))
            hi.2.2.1 hi.2.2.2.1 hi.2.1 hi.1
            (by
              have hx := hi.2.2.2.2
              have hz := hb.2.2.2.2
              show (insertMessage (batchGo pe s pre).1 m).ls.processed_order.length
                + totalDelivered rest ≤ 5000
              omega)
          refine ⟨?_, ihh.2.1, ihh.2.2.1, ?_, ?_⟩
          · show (D ++ (((batchGo pe s pre).2 ++
              (if reached && (handleMessage pe (batchGo pe s pre).1 m).2
                then [unique_key m] else [])) ++
              (listenerRun rest
                (listenerStep pe (CycleObs.raisesMid pre m reached e) s).1).2.flatten)).Nodup
            rw [← List.append_assoc, ← List.append_assoc]
            exact ihh.1
          · intro k hk
            apply ihh.2.2.2.1
            rw [List.append_assoc, List.append_assoc]
            have hk2 : k ∈ D ++ (((batchGo pe s pre).2 ++
                (if reached && (handleMessage pe (batchGo pe s pre).1 m).2
                  then [unique_key m] else [])) ++
                (listenerRun rest
                  (listenerStep pe
                    (CycleObs.raisesMid pre m reached e) s).1).2.flatten) :=
              hk
            rw [List.append_assoc] at hk2
            exact hk2
          · have hy := ihh.2.2.2.2
            have hx := hi.2.2.2.2
            have hz := hb.2.2.2.2
            have hbridge : (listenerStep pe
                (CycleObs.raisesMid pre m reached e) s).1.ls.processed_order.length
                = (insertMessage (batchGo pe s pre).1 m).ls.processed_order.length :=
              rfl
            show (listenerRun rest
                (listenerStep pe (CycleObs.raisesMid pre m reached e) s).1).1.ls.processed_order.length
              ≤ s.ls.processed_order.length + totalDelivered
                ((pe, CycleObs.raisesMid pre m reached e) :: rest)
            rw [ht]
            omega
      | online msgs =>
          have h5' : s.ls.processed_order.length +
              (msgs.length + totalDelivered rest) ≤ 5000 := h5
          have hro := runOnline_dedup pe s msgs D h1 h2 h3 h4 (by omega)
          have ihh := ih (runOnline pe s msgs).1
            (D ++ (runOnline pe s msgs).2) hro.2.2.1 hro.2.2.2.1 hro.2.1 hro.1
            (by
              have := hro.2.2.2.2
              omega)
          refine ⟨?_, ihh.2.1, ihh.2.2.1, ?_, ?_⟩
          · show (D ++ ((runOnline pe s msgs).2 ++
              (listenerRun rest (runOnline pe s msgs).1).2.flatten)).Nodup
            rw [← List.append_assoc]
            exact ihh.1
          · intro k hk
            apply ihh.2.2.2.1
            rw [List.append_assoc]
            exact hk
          · have := ihh.2.2.2.2
            have := hro.2.2.2.2
            show (listenerRun rest (runOnline pe s msgs).1).1.ls.processed_order.length
              ≤ s.ls.processed_order.length + totalDelivered
                ((pe, CycleObs.online msgs) :: rest)
            have ht : totalDelivered ((pe, CycleObs.online msgs) :: rest) =
              msgs.length + totalDelivered rest := rfl
            omega
      | restored msgs =>
          have h5' : s.ls.processed_order.length +
              (msgs.length + totalDelivered rest) ≤ 5000 := h5
          have hsl : (⟨s.ls, { s.stab with reconnect_attempts := 0 }⟩ :
              LoopState).ls.processed_order.length =
              s.ls.processed_order.length := rfl
          have hro := runOnline_dedup pe
            ⟨s.ls, { s.stab with reconnect_attempts := 0 }⟩ msgs D h1 h2 h3 h4
            (by
              show s.ls.processed_order.length + msgs.length ≤ 5000
              omega)
          have ihh := ih (runOnline pe
              ⟨s.ls, { s.stab with reconnect_attempts := 0 }⟩ msgs).1
            (D ++ (runOnline pe
              ⟨s.ls, { s.stab with reconnect_attempts := 0 }⟩ msgs).2)
            hro.2.2.1 hro.2.2.2.1 hro.2.1 hro.1
            (by
              have hx := hro.2.2.2.2
              rw [hsl] at hx
              omega)
          refine ⟨?_, ihh.2.1, ihh.2.2.1, ?_, ?_⟩
          · show (D ++ ((runOnline pe
              ⟨s.ls, { s.stab with reconnect_attempts := 0 }⟩ msgs).2 ++
              (listenerRun rest (runOnline pe
                ⟨s.ls, { s.stab with reconnect_attempts := 0 }⟩ msgs).1).2.flatten)).Nodup
            rw [← List.append_assoc]
            exact ihh.1
          · intro k hk
            apply ihh.2.2.2.1
            rw [List.append_assoc]
            exact hk
          · have hy := ihh.2.2.2.2
            have hx := hro.2.2.2.2
            rw [hsl] at hx
            show (listenerRun rest (runOnline pe
              ⟨s.ls, { s.stab with reconnect_attempts := 0 }⟩ msgs).1).1.ls.processed_order.length
              ≤ s.ls.processed_order.length + totalDelivered
                ((pe, CycleObs.restored msgs) :: rest)
            have ht : totalDelivered ((pe, CycleObs.restored msgs) :: rest) =
              msgs.length + totalDelivered rest := rfl
            omega

/-- C1 (amended): over every run that hands the listener at most 5000
messages in total - so the bounded dedup deque never evicts - each dedup key
reaches the dispatch call `processor.process` at most once. -/
theorem dedup_idempotence_bounded (steps : List (CycleEnv × CycleObs))
    (st0 : StabilityState) (hcap : totalDelivered steps ≤ 5000)
    (mkey : String) :
    ((listenerRun steps ⟨initListener, st0⟩).2.flatten).count mkey ≤ 1 := by
  have h := listenerRun_dedup steps ⟨initListener, st0⟩ []
    (by simp [initListener]) (by simp [initListener]) (by simp)
    List.nodup_nil (by simpa [initListener] using hcap)
  have hnd : ((listenerRun steps ⟨initListener, st0⟩).2.flatten).Nodup := by
    simpa using h.1
  exact List.nodup_iff_count_le_one.mp hnd mkey

/-- Witness for the amended C1 at a concrete one-cycle run. -/
theorem dedup_idempotence_bounded_witness :
    ((listenerRun [(envNoReply, CycleObs.online [cexMsg 0])]
      ⟨initListener, stab0⟩).2.flatten).count (kA 0) ≤ 1 :=
  dedup_idempotence_bounded [(envNoReply, CycleObs.online [cexMsg 0])] stab0
    (by decide) (kA 0)

theorem listenerRun_append (a b : List (CycleEnv × CycleObs)) :
    ∀ s : LoopState, listenerRun (a ++ b) s =
      ((listenerRun b (listenerRun a s).1).1,
        (listenerRun a s).2 ++ (listenerRun b (listenerRun a s).1).2) := by
  induction a with
  | nil => intro s; rfl
  | cons p rest ih =>
      intro s
      show (let r := listenerStep p.1 p.2 s
        let rr := listenerRun (rest ++ b) r.1
        (rr.1, r.2 :: rr.2)) = _
      dsimp only
      rw [ih (listenerStep p.1 p.2 s).1]
      rfl

theorem kA_ne (i : Nat) : kA i ≠ "" := by
  unfold kA
  intro h
  simpa using congrArg String.data h

theorem kA_inj : Function.Injective kA := by
  intro i j h
  have h2 := congrArg String.data h
  have h3 := congrArg List.length h2
  simpa [kA] using h3

theorem kA_strip (i : Nat) : pyStrip (kA i) = kA i := by
  have hd : List.dropWhile Char.isWhitespace (List.replicate (i+1) 'a') =
      List.replicate (i+1) 'a' := by
    rw [List.replicate_succ, List.dropWhile_cons, if_neg (by decide),
      ← List.replicate_succ]
  unfold pyStrip kA
  rw [show (String.mk (List.replicate (i+1) 'a')).data =
    List.replicate (i+1) 'a' from rfl, hd, List.reverse_replicate, hd,
    List.reverse_replicate]

theorem cexMsg_key (i : Nat) : unique_key (cexMsg i) = kA i := by
  unfold unique_key msg_id
  rw [show (cexMsg i).id = kA i from rfl, kA_strip]
  rw [if_pos (kA_ne i)]

theorem cexMsg_content (i : Nat) : content (cexMsg i) = "" := rfl

theorem cexHandle (n : Nat) (S : Finset String) (O : List String) (p : ℚ)
    (st : StabilityState) (hS : kA n ∉ S) :
    handleMessage envNoReply ⟨⟨O, S, [], p⟩, st⟩ (cexMsg n) =
      (⟨⟨dequeAppend orderCap O (kA n), insert (kA n) S, [], p⟩,
        { st with
          last_message_time := 0
          total_messages := st.total_messages + 1 }⟩, true) := by
  unfold handleMessage
  dsimp only
  rw [cexMsg_key, cexMsg_content]
  rw [if_neg (kA_ne n), if_neg hS, if_neg (by simp),
    if_neg (by simp [envNoReply])]
  rfl

theorem listenerStep_online_eq (env : CycleEnv) (msgs : List Message)
    (s : LoopState) :
    listenerStep env (CycleObs.online msgs) s =
      (⟨updateInterval (!(processBatch env s msgs).2.isEmpty)
          (resyncStep (processBatch env s msgs).1.ls),
        (processBatch env s msgs).1.stab⟩,
      (processBatch env s msgs).2) := rfl

theorem cexStepEq (n : Nat) (S : Finset String) (O : List String) (p : ℚ)
    (st : StabilityState) (hS : kA n ∉ S) :
    listenerStep envNoReply (CycleObs.online [cexMsg n]) ⟨⟨O, S, [], p⟩, st⟩ =
      (⟨updateInterval true
          (resyncStep ⟨dequeAppend orderCap O (kA n), insert (kA n) S, [], p⟩),
        { st with
          last_message_time := 0
          total_messages := st.total_messages + 1 }⟩, [kA n]) := by
  have hb : processBatch envNoReply ⟨⟨O, S, [], p⟩, st⟩ [cexMsg n] =
      (⟨⟨dequeAppend orderCap O (kA n), insert (kA n) S, [], p⟩,
        { st with
          last_message_time := 0
          total_messages := st.total_messages + 1 }⟩, [kA n]) := by
    show (let r := handleMessage envNoReply ⟨⟨O, S, [], p⟩, st⟩ (cexMsg n)
      let rr := batchGo envNoReply r.1 []
      (rr.1, (if r.2 then [unique_key (cexMsg n)] else []) ++ rr.2)) = _
    dsimp only
    rw [cexHandle n S O p st hS]
    dsimp only
    rw [if_pos rfl, cexMsg_key]
    rfl
  rw [listenerStep_online_eq, hb]
  rfl

theorem kA_range_nodup (n : Nat) : (List.map kA (List.range n)).Nodup :=
  List.Nodup.map kA_inj (List.nodup_range n)

theorem kA_range_card (n : Nat) :
    (List.map kA (List.range n)).toFinset.card = n := by
  rw [List.toFinset_card_of_nodup (kA_range_nodup n), List.length_map,
    List.length_range]

theorem kA_mem_range_iff (n i : Nat) :
    kA i ∈ (List.map kA (List.range n)).toFinset ↔ i < n := by
  rw [List.mem_toFinset, List.mem_map]
  constructor
  · rintro ⟨j, hj, hji⟩
    rw [← kA_inj hji]
    exact List.mem_range.mp hj
  · intro hi
    exact ⟨i, List.mem_range.mpr hi, rfl⟩

theorem cexOrder_step (n : Nat) :
    dequeAppend orderCap ((List.map kA (List.range n)).drop (n - 5000)) (kA n)
      = (List.map kA (List.range (n+1))).drop (n + 1 - 5000) := by
  have hlen : ((List.map kA (List.range n)).drop (n - 5000)).length =
      n - (n - 5000) := by
    rw [List.length_drop, List.length_map, List.length_range]
  rw [dequeAppend_eq _ _ _ (by norm_num [orderCap]), hlen,
    List.range_succ, List.map_append, List.drop_drop,
    List.drop_append_of_le_length
      (by rw [List.length_map, List.length_range]; omega),
    show orderCap = 5000 from rfl]
  have harith : n - 5000 + (n - (n - 5000) + 1 - 5000) = n + 1 - 5000 := by
    omega
  rw [harith]
  rfl

theorem cexSet_step (n : Nat) :
    insert (kA n) (List.map kA (List.range n)).toFinset =
      (List.map kA (List.range (n+1))).toFinset := by
  ext x
  simp only [Finset.mem_insert, List.mem_toFinset, List.range_succ,
    List.map_append, List.mem_append, List.map_cons, List.map_nil,
    List.mem_singleton, List.mem_cons, List.not_mem_nil, or_false]
  exact or_comm

theorem resyncStep_no_fire (O : List String) (S : Finset String) (p : ℚ)
    (h : ¬ (O.length + 100 < S.card)) :
    resyncStep ⟨O, S, [], p⟩ = ⟨O, S, [], p⟩ := by
  unfold resyncStep
  exact if_neg h

theorem cexShape_succ (n : Nat) : cexShape (n+1) =
    ⟨(List.map kA (List.range (n+1))).drop (n + 1 - 5000),
      (List.map kA (List.range (n+1))).toFinset, [], min_interval⟩ := by
  unfold cexShape
  rw [if_neg (Nat.succ_ne_zero n)]

theorem updateInterval_true (ls : ListenerState) : updateInterval true ls =
    ⟨ls.processed_order, ls.processed_set, ls.sent_buffer, min_interval⟩ := rfl

theorem cexShape_step (n : Nat) (hn : n < 5100) (st : StabilityState) :
    ∃ st', listenerStep envNoReply (CycleObs.online [cexMsg n])
        ⟨cexShape n, st⟩ = (⟨cexShape (n+1), st'⟩, [kA n]) := by
  have hc : ¬ (((List.map kA (List.range (n+1))).drop (n + 1 - 5000)).length
      + 100 < ((List.map kA (List.range (n+1))).toFinset).card) := by
    rw [kA_range_card, List.length_drop, List.length_map, List.length_range]
    omega
  refine ⟨{ st with
    last_message_time := 0
    total_messages := st.total_messages + 1 }, ?_⟩
  show listenerStep envNoReply (CycleObs.online [cexMsg n])
    ⟨⟨(List.map kA (List.range n)).drop (n - 5000),
      (List.map kA (List.range n)).toFinset, [],
      if n = 0 then 1 else min_interval⟩, st⟩ = _
  rw [cexStepEq n _ _ _ st (by rw [kA_mem_range_iff]; omega)]
  rw [cexOrder_step n, cexSet_step n, resyncStep_no_fire _ _ _ hc,
    cexShape_succ n, updateInterval_true]

theorem cexPrefix_succ (n : Nat) :
    cexPrefix (n+1) = cexPrefix n ++ [(envNoReply, CycleObs.online [cexMsg n])] := by
  unfold cexPrefix
  rw [List.range_succ, List.map_append]
  rfl

theorem listenerRun_single (p : CycleEnv × CycleObs) (s : LoopState) :
    listenerRun [p] s = ((listenerStep p.1 p.2 s).1, [(listenerStep p.1 p.2 s).2]) :=
  rfl

theorem cexPrefix_run (n : Nat) :
    n ≤ 5100 → ∀ st : StabilityState,
      ∃ st', listenerRun (cexPrefix n) ⟨cexShape 0, st⟩ =
        (⟨cexShape n, st'⟩, (List.range n).map (fun i => [kA i])) := by
  induction n with
  | zero => intro _ st; exact ⟨st, rfl⟩
  | succ n ih =>
      intro hn st
      obtain ⟨st1, h1⟩ := ih (by omega) st
      obtain ⟨st2, h2⟩ := cexShape_step n (by omega) st1
      refine ⟨st2, ?_⟩
      rw [cexPrefix_succ n, listenerRun_append, h1]
      dsimp only
      rw [listenerRun_single, h2]
      dsimp only
      rw [List.range_succ, List.map_append]
      rfl

theorem resyncStep_fire (O : List String) (S : Finset String) (p : ℚ)
    (h : O.length + 100 < S.card) :
    resyncStep ⟨O, S, [], p⟩ = ⟨O, O.toFinset, [], p⟩ := by
  unfold resyncStep
  rw [if_pos h]

theorem cexThreshold (st : StabilityState) :
    ∃ st', listenerStep envNoReply (CycleObs.online [cexMsg 5100])
        ⟨cexShape 5100, st⟩ =
      (⟨⟨(List.map kA (List.range (5100+1))).drop (5100 + 1 - 5000),
          ((List.map kA (List.range (5100+1))).drop (5100 + 1 - 5000)).toFinset,
          [], min_interval⟩, st'⟩, [kA 5100]) := by
  have hc : ((List.map kA (List.range (5100+1))).drop (5100 + 1 - 5000)).length
      + 100 < ((List.map kA (List.range (5100+1))).toFinset).card := by
    rw [kA_range_card, List.length_drop, List.length_map, List.length_range]
    omega
  refine ⟨{ st with
    last_message_time := 0
    total_messages := st.total_messages + 1 }, ?_⟩
  show listenerStep envNoReply (CycleObs.online [cexMsg 5100])
    ⟨⟨(List.map kA (List.range 5100)).drop (5100 - 5000),
      (List.map kA (List.range 5100)).toFinset, [],
      if 5100 = 0 then 1 else min_interval⟩, st⟩ = _
  rw [cexStepEq 5100 _ _ _ st (by rw [kA_mem_range_iff]; omega)]
  rw [cexOrder_step 5100, cexSet_step 5100, resyncStep_fire _ _ _ hc,
    updateInterval_true]

theorem cexFinal (st : StabilityState) :
    (listenerStep envNoReply (CycleObs.online [cexMsg 0])
      ⟨⟨(List.map kA (List.range (5100+1))).drop (5100 + 1 - 5000),
        ((List.map kA (List.range (5100+1))).drop (5100 + 1 - 5000)).toFinset,
        [], min_interval⟩, st⟩).2 = [kA 0] := by
  have h1 : List.map kA (List.range (5100+1)) =
      kA 0 :: List.map (fun j => kA (j+1)) (List.range 5100) := by
    rw [List.range_succ_eq_map, List.map_cons, List.map_map]
    rfl
  have hS : kA 0 ∉
      ((List.map kA (List.range (5100+1))).drop (5100 + 1 - 5000)).toFinset := by
    rw [List.mem_toFinset]
    intro hmem
    rw [h1] at hmem
    rw [show (5100:Nat) + 1 - 5000 = 100 + 1 from by norm_num,
      List.drop_succ_cons] at hmem
    have h3 := (List.drop_sublist 100 _).subset hmem
    rw [List.mem_map] at h3
    obtain ⟨j, _, hj⟩ := h3
    exact absurd (kA_inj hj) (Nat.succ_ne_zero j)
  rw [cexStepEq 0 _ _ _ st hS]

theorem flatten_of_singletons (l : List Nat) :
    (l.map fun i => [kA i]).flatten = l.map kA := by
  induction l with
  | nil => rfl
  | cons a t ih => simp [ih]

/-- C1 is refuted on the code: in the eviction scenario the message with
dedup key `kA 0` is delivered in the first cycle and again in the last
cycle, and it reaches `processor.process` twice, because 5100 fresh keys in
between push the key out of the 5000-capacity deque and a resync then drops
it from `processed_set`. -/
theorem dedup_idempotence_cex :
    ((listenerRun cexSteps ⟨initListener, stab0⟩).2.flatten).count (kA 0)
      = 2 := by
  have hp : cexPrefix 5101 =
      cexPrefix 5100 ++ [(envNoReply, CycleObs.online [cexMsg 5100])] :=
    cexPrefix_succ 5100
  have hsteps : cexSteps = cexPrefix 5100 ++
      ([(envNoReply, CycleObs.online [cexMsg 5100])] ++
        [(envNoReply, CycleObs.online [cexMsg 0])]) := by
    show cexPrefix 5101 ++ [(envNoReply, CycleObs.online [cexMsg 0])] = _
    rw [hp, List.append_assoc]
  have hinit : (⟨initListener, stab0⟩ : LoopState) = ⟨cexShape 0, stab0⟩ := rfl
  obtain ⟨st1, h1⟩ := cexPrefix_run 5100 (by norm_num) stab0
  obtain ⟨st2, h2⟩ := cexThreshold st1
  rw [hinit, hsteps, listenerRun_append, h1]
  dsimp only
  rw [listenerRun_append [(envNoReply, CycleObs.online [cexMsg 5100])]
    [(envNoReply, CycleObs.online [cexMsg 0])]]
  rw [listenerRun_single ((envNoReply, CycleObs.online [cexMsg 5100]))]
  dsimp only
  rw [h2]
  dsimp only
  rw [listenerRun_single ((envNoReply, CycleObs.online [cexMsg 0]))]
  dsimp only
  rw [cexFinal st2]
  rw [List.flatten_append, List.flatten_append, flatten_of_singletons]
  rw [List.count_append, List.count_append]
  have hc1 : List.count (kA 0) (List.map kA (List.range 5100)) = 1 := by
    rw [List.count_map_of_injective _ kA kA_inj]
    exact List.count_eq_one_of_mem (List.nodup_range 5100)
      (List.mem_range.mpr (by norm_num))
  have hne : (kA 5100 == kA 0) = false := by
    rw [beq_eq_false_iff_ne]
    intro h
    exact absurd (kA_inj h) (by norm_num)
  have hc2 : List.count (kA 0) [[kA 5100]].flatten = 0 := by
    show List.count (kA 0) [kA 5100] = 0
    rw [show [kA 5100] = kA 5100 :: [] from rfl, List.count_cons, hne,
      List.count_nil]
    simp
  have hc3 : List.count (kA 0) [[kA 0]].flatten = 1 := by
    show List.count (kA 0) [kA 0] = 1
    rw [show [kA 0] = kA 0 :: [] from rfl, List.count_cons, List.count_nil]
    simp
  rw [hc1, hc2, hc3]

theorem driftInsert (n : Nat) (S : Finset String) (O : List String) (p : ℚ)
    (st : StabilityState) (hS : kA n ∉ S) :
    insertMessage ⟨⟨O, S, [], p⟩, st⟩ (cexMsg n) =
      ⟨⟨dequeAppend orderCap O (kA n), insert (kA n) S, [], p⟩, st⟩ := by
  unfold insertMessage
  dsimp only
  rw [cexMsg_key]
  rw [if_neg (kA_ne n), if_neg hS]

theorem listenerStep_raisesMid_eq (env : CycleEnv) (pre : List Message)
    (m : Message) (reached : Bool) (e : String) (s : LoopState) :
    listenerStep env (CycleObs.raisesMid pre m reached e) s =
      (listenerRescue env.nowIso e (insertMessage (batchGo env s pre).1 m),
        (batchGo env s pre).2 ++
          if reached && (handleMessage env (batchGo env s pre).1 m).2
            then [unique_key m] else []) := rfl

theorem listenerRescue_sets (iso e : String) (s : LoopState) :
    (listenerRescue iso e s).ls.processed_set = s.ls.processed_set ∧
    (listenerRescue iso e s).ls.processed_order = s.ls.processed_order :=
  ⟨rfl, rfl⟩

theorem driftStepState (st : StabilityState) :
    (listenerStep envNoReply
        (CycleObs.raisesMid [] (cexMsg 5100) false "boom")
        ⟨cexShape 5100, st⟩).1.ls.processed_set =
      (List.map kA (List.range (5100 + 1))).toFinset ∧
    (listenerStep envNoReply
        (CycleObs.raisesMid [] (cexMsg 5100) false "boom")
        ⟨cexShape 5100, st⟩).1.ls.processed_order =
      (List.map kA (List.range (5100 + 1))).drop (5100 + 1 - 5000) := by
  have hS : kA 5100 ∉ (List.map kA (List.range 5100)).toFinset := by
    rw [kA_mem_range_iff]
    omega
  have hb0 : batchGo envNoReply ⟨cexShape 5100, st⟩ [] =
      (⟨cexShape 5100, st⟩, []) := rfl
  have hins : insertMessage ⟨cexShape 5100, st⟩ (cexMsg 5100) =
      ⟨⟨dequeAppend orderCap
          ((List.map kA (List.range 5100)).drop (5100 - 5000)) (kA 5100),
        insert (kA 5100) (List.map kA (List.range 5100)).toFinset,
        [], if 5100 = 0 then 1 else min_interval⟩, st⟩ := by
    show insertMessage ⟨⟨(List.map kA (List.range 5100)).drop (5100 - 5000),
        (List.map kA (List.range 5100)).toFinset, [],
        if 5100 = 0 then 1 else min_interval⟩, st⟩ (cexMsg 5100) = _
    exact driftInsert 5100 _ _ _ st hS
  have hins2 : insertMessage ⟨cexShape 5100, st⟩ (cexMsg 5100) =
      ⟨⟨(List.map kA (List.range (5100 + 1))).drop (5100 + 1 - 5000),
        (List.map kA (List.range (5100 + 1))).toFinset,
        [], if 5100 = 0 then 1 else min_interval⟩, st⟩ := by
    rw [hins, cexOrder_step 5100, cexSet_step 5100]
  constructor
  · rw [listenerStep_raisesMid_eq]
    dsimp only
    rw [hb0]
    dsimp only
    rw [hins2, (listenerRescue_sets envNoReply.nowIso "boom" _).1]
  · rw [listenerStep_raisesMid_eq]
    dsimp only
    rw [hb0]
    dsimp only
    rw [hins2, (listenerRescue_sets envNoReply.nowIso "boom" _).2]

/-- C6 is refuted on the code: after 5100 cycles delivering one fresh key
each, `processed_set` holds 5100 keys while the 5000-capacity deque holds
5000 (an excess of exactly 100, which never fires the resync), and one more
cycle whose fresh message has its dedup insertions committed before an
exception escapes leaves an excess of 101 at the cycle boundary, because
the exception handler skips the resync check. -/
theorem processed_set_drift_cex :
    (listenerRun driftSteps ⟨initListener, stab0⟩).1.ls.processed_set.card =
      (listenerRun driftSteps
        ⟨initListener, stab0⟩).1.ls.processed_order.length + 101 := by
  have hinit : (⟨initListener, stab0⟩ : LoopState) = ⟨cexShape 0, stab0⟩ := rfl
  obtain ⟨st1, h1⟩ := cexPrefix_run 5100 (by norm_num) stab0
  show (listenerRun (cexPrefix 5100 ++ [(envNoReply,
      CycleObs.raisesMid [] (cexMsg 5100) false "boom")])
    ⟨initListener, stab0⟩).1.ls.processed_set.card =
    (listenerRun (cexPrefix 5100 ++ [(envNoReply,
      CycleObs.raisesMid [] (cexMsg 5100) false "boom")])
    ⟨initListener, stab0⟩).1.ls.processed_order.length + 101
  rw [hinit, listenerRun_append, h1]
  dsimp only
  rw [listenerRun_single
    ((envNoReply, CycleObs.raisesMid [] (cexMsg 5100) false "boom"))]
  dsimp only
  rw [(driftStepState st1).1, (driftStepState st1).2]
  rw [kA_range_card, List.length_drop, List.length_map, List.length_range]

/-! ### C8: scheduled-task time validation -/

theorem uint32_le_toNat (a b : UInt32) : a ≤ b ↔ a.toNat ≤ b.toNat :=
  UInt32.le_def.trans BitVec.le_def

theorem char_le_toNat (a b : Char) : a ≤ b ↔ a.toNat ≤ b.toNat :=
  Char.le_def.trans (uint32_le_toNat _ _)

theorem isDigit_iff (c : Char) :
    c.isDigit = true ↔ 48 ≤ c.toNat ∧ c.toNat ≤ 57 := by
  have hle : ∀ a b : UInt32, a ≤ b ↔ a.toNat ≤ b.toNat := uint32_le_toNat
  simp only [Char.isDigit, GE.ge, Bool.and_eq_true, decide_eq_true_eq]
  rw [hle, hle]
  exact Iff.rfl

theorem digitChar_of_toNat (c : Char) (hc1 : 48 ≤ c.toNat)
    (hc2 : c.toNat ≤ 57) : digitChar (c.toNat - 48) = c := by
  unfold digitChar
  rw [show 48 + (c.toNat - 48) = c.toNat from by omega]
  exact Char.ofNat_toNat c

theorem digitChar_toNat (d : Nat) (h : d ≤ 9) :
    (digitChar d).toNat = 48 + d := by
  interval_cases d <;> rfl

theorem digitChar_ge0 (d : Nat) (h : d ≤ 9) : '0' ≤ digitChar d := by
  rw [char_le_toNat, digitChar_toNat d h,
    show ('0' : Char).toNat = 48 from rfl]
  omega

theorem digitChar_le5 (d : Nat) (h : d ≤ 5) : digitChar d ≤ '5' := by
  rw [char_le_toNat, digitChar_toNat d (by omega),
    show ('5' : Char).toNat = 53 from rfl]
  omega

theorem digitChar_le3 (d : Nat) (h : d ≤ 3) : digitChar d ≤ '3' := by
  rw [char_le_toNat, digitChar_toNat d (by omega),
    show ('3' : Char).toNat = 51 from rfl]
  omega

theorem digitChar_isDigit (d : Nat) (h : d ≤ 9) :
    (digitChar d).isDigit = true := by
  rw [isDigit_iff, digitChar_toNat d h]
  omega

theorem digitChar_01 (d : Nat) (h : d ≤ 1) :
    digitChar d = '0' ∨ digitChar d = '1' := by
  interval_cases d
  · exact Or.inl rfl
  · exact Or.inr rfl

theorem digitChar2 : digitChar 2 = '2' := rfl

theorem twoDigits_mk (x y : Char) (hx1 : 48 ≤ x.toNat) (hx2 : x.toNat ≤ 57)
    (hy1 : 48 ≤ y.toNat) (hy2 : y.toNat ≤ 57) :
    twoDigits (10 * (x.toNat - 48) + (y.toNat - 48)) = String.mk [x, y] := by
  unfold twoDigits
  rw [show (10 * (x.toNat - 48) + (y.toNat - 48)) / 10 = x.toNat - 48 from by
      omega,
    show (10 * (x.toNat - 48) + (y.toNat - 48)) % 10 = y.toNat - 48 from by
      omega,
    digitChar_of_toNat x hx1 hx2, digitChar_of_toNat y hy1 hy2]

theorem unicodeDigit_of_isDigit (c : Char) (h : c.isDigit = true) :
    unicodeDigit c = true := by
  obtain ⟨h1, h2⟩ := (isDigit_iff c).mp h
  unfold unicodeDigit
  rw [decide_eq_true ((char_le_toNat '0' c).mpr (by
      rw [show ('0' : Char).toNat = 48 from rfl]; omega)),
    decide_eq_true ((char_le_toNat c '9').mpr (by
      rw [show ('9' : Char).toNat = 57 from rfl]; omega))]
  rfl

theorem unicodeDigit_ascii (c : Char) (h : c.toNat < 128) :
    unicodeDigit c = c.isDigit := by
  by_cases hd : c.isDigit = true
  · rw [hd, unicodeDigit_of_isDigit c hd]
  · have hnum : ¬ (48 ≤ c.toNat ∧ c.toNat ≤ 57) := fun hc =>
      hd ((isDigit_iff c).mpr hc)
    rw [Bool.eq_false_iff.mpr hd]
    unfold unicodeDigit
    rw [decide_eq_false (fun hc : (1632 : Nat) ≤ c.toNat => by omega),
      Bool.false_and, Bool.or_false]
    by_cases h0 : '0' ≤ c
    · rw [decide_eq_true h0,
        decide_eq_false (fun h9 : c ≤ '9' => hnum
          ⟨(char_le_toNat '0' c).mp h0, (char_le_toNat c '9').mp h9⟩)]
      rfl
    · rw [decide_eq_false h0]
      rfl

theorem timeHMPattern_complete (nd : Char → Bool)
    (hnd : ∀ c : Char, c.toNat < 128 → nd c = c.isDigit) (s : String)
    (hpat : timeHMPattern nd s = true)
    (hascii : ∀ c ∈ s.data, c.toNat < 128) : specValidTimeHM s := by
  unfold timeHMPattern at hpat
  rcases hd : s.data with _ | ⟨h1, _ | ⟨h2, _ | ⟨c0, _ | ⟨m1, _ | ⟨m2,
    _ | ⟨x, rest⟩⟩⟩⟩⟩⟩ <;> rw [hd] at hpat
  · exact Bool.noConfusion (show false = true from hpat)
  · exact Bool.noConfusion (show false = true from hpat)
  · exact Bool.noConfusion (show false = true from hpat)
  · exact Bool.noConfusion (show false = true from hpat)
  · exact Bool.noConfusion (show false = true from hpat)
  case cons.cons.cons.cons.cons.cons =>
    exact Bool.noConfusion (show false = true from hpat)
  have hh2a : h2.toNat < 128 := hascii h2 (by rw [hd]; simp)
  have hm2a : m2.toNat < 128 := hascii m2 (by rw [hd]; simp)
  have hpat' : (((h1 == '0' || h1 == '1') && nd h2 ||
      h1 == '2' && (decide ('0' ≤ h2) && decide (h2 ≤ '3'))) &&
      c0 == ':' && (decide ('0' ≤ m1) && decide (m1 ≤ '5')) &&
      nd m2) = true := hpat
  rw [hnd h2 hh2a, hnd m2 hm2a] at hpat'
  simp only [Bool.and_eq_true, Bool.or_eq_true, beq_iff_eq,
    decide_eq_true_eq] at hpat'
  obtain ⟨⟨⟨hhour, hc0⟩, hm1⟩, hm2⟩ := hpat'
  have hm1n : 48 ≤ m1.toNat ∧ m1.toNat ≤ 53 := by
    obtain ⟨ha, hb⟩ := hm1
    rw [char_le_toNat, show ('0' : Char).toNat = 48 from rfl] at ha
    rw [char_le_toNat, show ('5' : Char).toNat = 53 from rfl] at hb
    exact ⟨ha, hb⟩
  have hm2n := (isDigit_iff m2).mp hm2
  have hhn : (48 ≤ h1.toNat ∧ h1.toNat ≤ 57) ∧
      (48 ≤ h2.toNat ∧ h2.toNat ≤ 57) ∧
      10 * (h1.toNat - 48) + (h2.toNat - 48) ≤ 23 := by
    rcases hhour with ⟨h01, hdig⟩ | ⟨h2eq, hb0, hb3⟩
    · have hd2 := (isDigit_iff h2).mp hdig
      rcases h01 with rfl | rfl
      · rw [show ('0' : Char).toNat = 48 from rfl]
        exact ⟨⟨by omega, by omega⟩, hd2, by omega⟩
      · rw [show ('1' : Char).toNat = 49 from rfl]
        exact ⟨⟨by omega, by omega⟩, hd2, by omega⟩
    · subst h2eq
      rw [char_le_toNat, show ('0' : Char).toNat = 48 from rfl] at hb0
      rw [char_le_toNat, show ('3' : Char).toNat = 51 from rfl] at hb3
      rw [show ('2' : Char).toNat = 50 from rfl]
      exact ⟨⟨by omega, by omega⟩, ⟨by omega, by omega⟩, by omega⟩
  obtain ⟨⟨hh1a, hh1b⟩, ⟨hh2a, hh2b⟩, hhle⟩ := hhn
  refine ⟨10 * (h1.toNat - 48) + (h2.toNat - 48),
    10 * (m1.toNat - 48) + (m2.toNat - 48), hhle, by omega, ?_⟩
  rw [twoDigits_mk h1 h2 hh1a hh1b hh2a hh2b,
    twoDigits_mk m1 m2 hm1n.1 (by omega) hm2n.1 hm2n.2]
  apply String.ext
  rw [hd, String.data_append, String.data_append, hc0]
  rfl

theorem timeHMPattern_sound (nd : Char → Bool)
    (hnd : ∀ c : Char, c.isDigit = true → nd c = true) (s : String)
    (hs : specValidTimeHM s) : timeHMPattern nd s = true := by
  obtain ⟨h, m, hh, hm, rfl⟩ := hs
  unfold timeHMPattern
  have hdata : (twoDigits h ++ ":" ++ twoDigits m).data =
      [digitChar (h / 10), digitChar (h % 10), ':',
        digitChar (m / 10), digitChar (m % 10)] := by
    rw [String.data_append, String.data_append]
    rfl
  rw [hdata]
  show (((digitChar (h/10) == '0' || digitChar (h/10) == '1') &&
      nd (digitChar (h%10)) ||
      digitChar (h/10) == '2' &&
        (decide ('0' ≤ digitChar (h%10)) && decide (digitChar (h%10) ≤ '3'))) &&
      (':' : Char) == ':' &&
      (decide ('0' ≤ digitChar (m/10)) && decide (digitChar (m/10) ≤ '5')) &&
      nd (digitChar (m%10))) = true
  simp only [Bool.and_eq_true, Bool.or_eq_true, beq_iff_eq,
    decide_eq_true_eq]
  refine ⟨⟨⟨?_, trivial⟩, digitChar_ge0 _ (by omega), digitChar_le5 _ (by omega)⟩,
    hnd _ (digitChar_isDigit _ (by omega))⟩
  rcases Nat.lt_or_ge (h / 10) 2 with hlt | hge
  · exact Or.inl ⟨digitChar_01 _ (by omega),
      hnd _ (digitChar_isDigit _ (by omega))⟩
  · have h2 : h / 10 = 2 := by omega
    right
    rw [h2, digitChar2]
    exact ⟨rfl, digitChar_ge0 _ (by omega), digitChar_le3 _ (by omega)⟩

theorem arabHM_not_spec : ¬ specValidTimeHM "1٣:45" := by
  rintro ⟨h, m, hh, hm, heq⟩
  have hd := congrArg String.data heq
  have h2 : (twoDigits h).data = [digitChar (h / 10), digitChar (h % 10)] := rfl
  have h3 : (twoDigits m).data = [digitChar (m / 10), digitChar (m % 10)] := rfl
  have hcolon : (":" : String).data = [':'] := rfl
  have hl : ("1٣:45" : String).data = ['1', Char.ofNat 1635, ':', '4', '5'] :=
    rfl
  rw [String.data_append, String.data_append, h2, h3, hcolon, hl] at hd
  simp only [List.cons_append, List.nil_append, List.cons.injEq] at hd
  have hc := congrArg Char.toNat hd.2.1
  rw [digitChar_toNat (h % 10) (Nat.le_of_lt_succ (Nat.mod_lt h (by norm_num)))]
    at hc
  rw [show (Char.ofNat 1635).toNat = 1635 from rfl] at hc
  omega

/-- C8 is refuted on the code: pydantic v2 compiles the pattern with a Rust
regex engine whose digit class matches any Unicode decimal digit, so the
validator accepts the string `1٣:45` - whose second character is the
Arabic-Indic digit three, U+0663 - and the handler body runs on it, although
it is not an `HH:MM` string with hours 00-23 and minutes 00-59. -/
theorem task_time_validation_cex :
    timeHMPattern unicodeDigit "1٣:45" = true ∧
    ¬ specValidTimeHM "1٣:45" ∧
    (framework_add_task (fun _ _ _ => Except.ok "t") "1٣:45" "c" "" stab0).1 =
      Except.ok "t" :=
  ⟨rfl, arabHM_not_spec, rfl⟩

/-- C8 (amended): acceptance is not exactly `HH:MM` over 00-23:00-59 - the
engine's digit class covers all Unicode decimal digits, so strings such as
`1٣:45` are also accepted (see the counterexample). What does hold: every
`HH:MM` string with hours 00-23 and minutes 00-59 is accepted, and among
strings made of ASCII characters nothing else is accepted; a rejected
payload is turned down synchronously with a 422 validation response before
the handler body runs, and the endpoint never touches the stability error
ring. -/
theorem task_time_validation :
    (∀ s : String, specValidTimeHM s → timeHMPattern unicodeDigit s = true) ∧
    (∀ s : String, timeHMPattern unicodeDigit s = true →
      (∀ c ∈ s.data, c.toNat < 128) → specValidTimeHM s) ∧
    (∀ (f : String → String → String → Except String String)
      (t c d : String) (st : StabilityState),
      (framework_add_task f t c d st).2 = st) ∧
    (∀ (f : String → String → String → Except String String)
      (t c d : String) (st : StabilityState),
      timeHMPattern unicodeDigit t = false →
      (framework_add_task f t c d st).1 =
        Except.error (422, "String should match pattern")) := by
  refine ⟨fun s hs => timeHMPattern_sound unicodeDigit unicodeDigit_of_isDigit
      s hs,
    fun s hp ha => timeHMPattern_complete unicodeDigit unicodeDigit_ascii
      s hp ha, ?_, ?_⟩
  · intro f t c d st
    unfold framework_add_task
    split_ifs <;> try rfl
    cases f t c d <;> rfl
  · intro f t c d st hf
    unfold framework_add_task
    rw [if_pos hf]

/-- Witness for the amended C8: "23:59" is accepted and, being ASCII, is
recognised as a spec-valid time; "09:30" as a spec-valid time is accepted;
"9:30" is rejected synchronously with the error ring untouched. -/
theorem task_time_validation_witness :
    timeHMPattern unicodeDigit "09:30" = true ∧
    specValidTimeHM "23:59" ∧
    (framework_add_task (fun _ _ _ => Except.ok "t") "9:30" "c" "" stab0).1 =
      Except.error (422, "String should match pattern") ∧
    (framework_add_task (fun _ _ _ => Except.ok "t") "9:30" "c" "" stab0).2 =
      stab0 :=
  ⟨task_time_validation.1 "09:30" ⟨9, 30, by norm_num, by norm_num, by decide⟩,
    task_time_validation.2.1 "23:59" (by decide) (by decide),
    task_time_validation.2.2.2 (fun _ _ _ => Except.ok "t") "9:30" "c" "" stab0
      (by decide),
    task_time_validation.2.2.1 (fun _ _ _ => Except.ok "t") "9:30" "c" "" stab0⟩

end WxFileHelper
